import Mathlib

/-!
Verification of the Argon language execution core against its source.

The definitions below are shallow embeddings of the Rust sources:
* `Rt`    — self-host/runtime.rs (tagged 64-bit values, argon_div, argon_eq)
* `Jit`   — src/jit.rs (hot-call counting, simple-function compilation)
* `Vm`    — src/bytecode_vm.rs (stack-based bytecode VM)
* `Interp`— src/interpreter.rs (tree-walking interpreter, heap-free fragment)
* `Gc`    — src/gc.rs (mark-and-sweep collector)

Machine integers (Rust i64) are modelled as unbounded `Int` together with
explicit reduction `wrap64` into the two's-complement range
[-2^63, 2^63), applied where the Rust arithmetic wraps (release-mode
overflow semantics).  Fallible operations (Rust panics, index errors,
non-termination) are modelled with `Option`; stdout is modelled as a list
of printed lines threaded through the state.
-/

/-- Reduce an unbounded integer into the i64 range [-2^63, 2^63),
two's-complement style. -/
def wrap64 (x : Int) : Int :=
  (x + 9223372036854775808) % 18446744073709551616 - 9223372036854775808

namespace Rt

/-- runtime.rs `is_int`: `(val & 1) == 1`; the low bit of a two's-complement
i64 is its value modulo 2. -/
def is_int (val : Int) : Bool := val % 2 == 1

/-- runtime.rs `is_ptr`: `(val & 1) == 0 && val != 0`. -/
def is_ptr (val : Int) : Bool := val % 2 == 0 && val != 0

/-- runtime.rs `to_int`: arithmetic shift right by 1, i.e. floor division
by 2 on the represented value. -/
def to_int (val : Int) : Int := Int.fdiv val 2

/-- runtime.rs `from_int`: `(n << 1) | 1`.  The shift wraps on i64;
`wrap64 (2 * n)` is even, so or-ing the low bit in is adding 1. -/
def from_int (n : Int) : Int := wrap64 (2 * n) + 1

/-- runtime.rs `argon_div`: divide-by-zero yields tagged 0; otherwise
truncated (Rust `/`) division of the untagged values, re-tagged. -/
def argon_div (a b : Int) : Int :=
  let vb := to_int b
  if vb = 0 then from_int 0 else from_int (Int.tdiv (to_int a) vb)

/-- Heap objects of the runtime: `ObjString` (tag 0) or `ObjArray` (tag 1),
identified by the `type_tag` in their header. -/
inductive Obj where
  | Str (data : String)
  | Arr (items : List Int)
  deriving DecidableEq

/-- The runtime heap: a partial map from (nonzero, even) addresses to the
objects stored there, as an association list. -/
def Mem := List (Int × Obj)

/-- Read the object at an address, `none` if the address is unmapped. -/
def lookupMem : Mem → Int → Option Obj
  | [], _ => none
  | (k, o) :: t, p => if k = p then some o else lookupMem t p

/-- runtime.rs `argon_eq`.  Same machine value → tagged 1; else if both
sides are pointers to `ObjString`s the string data is compared; anything
else → tagged 0.  Dereferencing an unmapped address is undefined
behaviour, modelled as `none`. -/
def argon_eq (mem : Mem) (a b : Int) : Option Int :=
  if a = b then some (from_int 1)
  else if is_ptr a && is_ptr b then
    match lookupMem mem a, lookupMem mem b with
    | some (.Str sa), some (.Str sb) =>
        if sa = sb then some (from_int 1) else some (from_int 0)
    | some _, some _ => some (from_int 0)
    | _, _ => none
  else some (from_int 0)

end Rt

namespace Jit

/-- jit.rs `JitOp`: per-step constant operations of a `Custom` body. -/
inductive JitOp where
  | Add (n : Int)
  | Sub (n : Int)
  | Mul (n : Int)
  | Div (n : Int)
  deriving DecidableEq

/-- jit.rs `SimpleFunction`: the restricted body DSL accepted by
`compile_simple_function`. -/
inductive SimpleFunction where
  | Identity
  | Double
  | Square
  | Increment
  | Negate
  | Custom (ops : List JitOp)
  deriving DecidableEq

/-- Semantics of one Cranelift op emitted for a `JitOp` (iadd/isub/imul
wrap on I64; sdiv truncates). -/
def evalJitOp (cur : Int) (op : JitOp) : Int :=
  match op with
  | .Add n => wrap64 (cur + n)
  | .Sub n => wrap64 (cur - n)
  | .Mul n => wrap64 (cur * n)
  | .Div n => wrap64 (Int.tdiv cur n)

/-- Semantics of the native code `compile_simple_function` emits for a
`SimpleFunction` body: a single i64 parameter, i64 result. -/
def evalSimple (body : SimpleFunction) (param : Int) : Int :=
  match body with
  | .Identity => param
  | .Double => wrap64 (param * 2)
  | .Square => wrap64 (param * param)
  | .Increment => wrap64 (param + 1)
  | .Negate => wrap64 (-param)
  | .Custom ops => ops.foldl evalJitOp param

/-- jit.rs `JitCompiler` state: call counts, the compiled-function cache
(keeping the body so the model can run the compiled code), the hot
threshold and the enabled flag.  The Cranelift module/context machinery
carries no observable state beyond the compiled code itself. -/
structure JitCompiler where
  compiled_functions : List (String × SimpleFunction)
  hot_threshold : Nat
  call_counts : List (String × Nat)
  enabled : Bool
  deriving DecidableEq

/-- jit.rs `JitCompiler::new` (the `Ok` case): threshold 100, enabled. -/
def JitCompiler.new : JitCompiler :=
  { compiled_functions := [], hot_threshold := 100, call_counts := [], enabled := true }

/-- jit.rs `set_hot_threshold`. -/
def set_hot_threshold (jit : JitCompiler) (threshold : Nat) : JitCompiler :=
  { jit with hot_threshold := threshold }

/-- HashMap `get` on an association list. -/
def lookupNat : List (String × Nat) → String → Option Nat
  | [], _ => none
  | (k, v) :: t, s => if k = s then some v else lookupNat t s

/-- HashMap `insert` (replace-or-append) on an association list. -/
def insertNat : List (String × Nat) → String → Nat → List (String × Nat)
  | [], s, v => [(s, v)]
  | (k, u) :: t, s, v => if k = s then (s, v) :: t else (k, u) :: insertNat t s v

/-- jit.rs `record_call`: `entry(name).or_insert(0)`, increment, and
report whether the incremented count reached the threshold. -/
def record_call (jit : JitCompiler) (name : String) : JitCompiler × Bool :=
  let count := (lookupNat jit.call_counts name).getD 0 + 1
  ({ jit with call_counts := insertNat jit.call_counts name count },
   count ≥ jit.hot_threshold)

/-- HashMap membership for the compiled-function cache. -/
def isCompiled : List (String × SimpleFunction) → String → Bool
  | [], _ => false
  | (k, _) :: t, s => k = s || isCompiled t s

/-- jit.rs `should_compile`: enabled, not already compiled, and the call
count has reached the threshold. -/
def should_compile (jit : JitCompiler) (name : String) : Bool :=
  if !jit.enabled then false
  else if isCompiled jit.compiled_functions name then false
  else match lookupNat jit.call_counts name with
    | some count => count ≥ jit.hot_threshold
    | none => false

/-- jit.rs `compile_simple_function`: emits native code for `body` and
records the function in the cache.  Code generation for the restricted
DSL always succeeds (host ISA errors are out of scope), so the model
returns the updated compiler. -/
def compile_simple_function (jit : JitCompiler) (name : String)
    (body : SimpleFunction) : JitCompiler :=
  { jit with compiled_functions := jit.compiled_functions ++ [(name, body)] }

/-- Lookup in the compiled-function cache. -/
def lookupCompiled : List (String × SimpleFunction) → String → Option SimpleFunction
  | [], _ => none
  | (k, b) :: t, s => if k = s then some b else lookupCompiled t s

/-- jit.rs `call_compiled`: run the previously compiled code on `arg`,
`none` if the name was never compiled. -/
def call_compiled (jit : JitCompiler) (name : String) (arg : Int) : Option Int :=
  match lookupCompiled jit.compiled_functions name with
  | some body => some (evalSimple body arg)
  | none => none

end Jit

namespace Vm

/-- bytecode_vm.rs `OpCode`. -/
inductive OpCode where
  | Const (n : Int)
  | ConstTrue
  | ConstFalse
  | ConstNull
  | Add | Sub | Mul | Div | Mod | Neg
  | Lt | Gt | Le | Ge | Eq | Ne
  | Not | And | Or
  | Jump (target : Nat)
  | JumpIfFalse (target : Nat)
  | JumpIfTrue (target : Nat)
  | LoadLocal (idx : Nat)
  | StoreLocal (idx : Nat)
  | Call (func_idx : Nat) (argc : Nat)
  | Return
  | Pop
  | Dup
  | Print
  | Halt
  deriving DecidableEq

/-- bytecode_vm.rs `VMValue`. -/
inductive VMValue where
  | Null
  | Bool (b : Bool)
  | Int (n : Int)
  deriving DecidableEq

/-- bytecode_vm.rs `VMValue::as_int`. -/
def as_int : VMValue → Int
  | .Int n => n
  | .Bool b => if b then 1 else 0
  | .Null => 0

/-- bytecode_vm.rs `VMValue::is_truthy`. -/
def is_truthy : VMValue → Bool
  | .Null => false
  | .Bool b => b
  | .Int n => n != 0

/-- bytecode_vm.rs `CompiledFunc`. -/
structure CompiledFunc where
  name : String
  arity : Nat
  locals : Nat
  code : List OpCode
  deriving DecidableEq

/-- bytecode_vm.rs `CallFrame`.  `bp` is an offset into the shared value
stack. -/
structure CallFrame where
  func_idx : Nat
  ip : Nat
  bp : Nat
  deriving DecidableEq

/-- bytecode_vm.rs `BytecodeVM`.  The `stack` and `frames` vectors are
lists in the same order as the Rust `Vec`s (index 0 first, pushes at the
end).  `output` records the lines `Print` writes to stdout.  The unused
scratch fields `ip`/`bp` of the Rust struct are omitted: the run loop
only ever reads frame-local `ip`/`bp`. -/
structure BytecodeVM where
  functions : List CompiledFunc
  func_map : List (String × Nat)
  stack : List VMValue
  frames : List CallFrame
  output : List String
  deriving DecidableEq

/-- bytecode_vm.rs `BytecodeVM::pop`: `stack.pop().unwrap_or(Null)`.
Returns the popped value and the remaining stack. -/
def popVal (s : List VMValue) : VMValue × List VMValue :=
  match s.getLast? with
  | some v => (v, s.dropLast)
  | none => (.Null, s)

/-- Result of one iteration of the `run` loop: keep going in a new state,
or return a value to the host. -/
inductive StepRes where
  | cont (vm : BytecodeVM)
  | done (v : VMValue)
  deriving DecidableEq

/-- One dispatch of the `run` loop on opcode `op`.  `vm` already has the
current frame's `ip` incremented (the Rust loop increments before
dispatch); `fr` is that incremented top frame and `rest` the frames below
it.  `none` models a Rust panic (out-of-range local or function index,
`peek` on an empty stack). -/
def execOp (op : OpCode) (vm : BytecodeVM) (fr : CallFrame) (rest : List CallFrame) :
    Option StepRes :=
  match op with
  | .Const n => some (.cont { vm with stack := vm.stack ++ [.Int n] })
  | .ConstTrue => some (.cont { vm with stack := vm.stack ++ [.Bool true] })
  | .ConstFalse => some (.cont { vm with stack := vm.stack ++ [.Bool false] })
  | .ConstNull => some (.cont { vm with stack := vm.stack ++ [.Null] })
  | .Add =>
      let (b, s1) := popVal vm.stack
      let (a, s2) := popVal s1
      some (.cont { vm with stack := s2 ++ [.Int (wrap64 (as_int a + as_int b))] })
  | .Sub =>
      let (b, s1) := popVal vm.stack
      let (a, s2) := popVal s1
      some (.cont { vm with stack := s2 ++ [.Int (wrap64 (as_int a - as_int b))] })
  | .Mul =>
      let (b, s1) := popVal vm.stack
      let (a, s2) := popVal s1
      some (.cont { vm with stack := s2 ++ [.Int (wrap64 (as_int a * as_int b))] })
  | .Div =>
      let (b, s1) := popVal vm.stack
      let (a, s2) := popVal s1
      some (.cont { vm with stack := s2 ++
        [.Int (if as_int b != 0 then Int.tdiv (as_int a) (as_int b) else 0)] })
  | .Mod =>
      let (b, s1) := popVal vm.stack
      let (a, s2) := popVal s1
      some (.cont { vm with stack := s2 ++
        [.Int (if as_int b != 0 then Int.tmod (as_int a) (as_int b) else 0)] })
  | .Neg =>
      let (a, s1) := popVal vm.stack
      some (.cont { vm with stack := s1 ++ [.Int (wrap64 (-(as_int a)))] })
  | .Lt =>
      let (b, s1) := popVal vm.stack
      let (a, s2) := popVal s1
      some (.cont { vm with stack := s2 ++ [.Bool (decide (as_int a < as_int b))] })
  | .Gt =>
      let (b, s1) := popVal vm.stack
      let (a, s2) := popVal s1
      some (.cont { vm with stack := s2 ++ [.Bool (decide (as_int a > as_int b))] })
  | .Le =>
      let (b, s1) := popVal vm.stack
      let (a, s2) := popVal s1
      some (.cont { vm with stack := s2 ++ [.Bool (decide (as_int a ≤ as_int b))] })
  | .Ge =>
      let (b, s1) := popVal vm.stack
      let (a, s2) := popVal s1
      some (.cont { vm with stack := s2 ++ [.Bool (decide (as_int a ≥ as_int b))] })
  | .Eq =>
      let (b, s1) := popVal vm.stack
      let (a, s2) := popVal s1
      some (.cont { vm with stack := s2 ++ [.Bool (decide (as_int a = as_int b))] })
  | .Ne =>
      let (b, s1) := popVal vm.stack
      let (a, s2) := popVal s1
      some (.cont { vm with stack := s2 ++ [.Bool (decide (as_int a ≠ as_int b))] })
  | .Not =>
      let (a, s1) := popVal vm.stack
      some (.cont { vm with stack := s1 ++ [.Bool (!(is_truthy a))] })
  | .And =>
      let (b, s1) := popVal vm.stack
      let (a, s2) := popVal s1
      some (.cont { vm with stack := s2 ++ [.Bool (is_truthy a && is_truthy b)] })
  | .Or =>
      let (b, s1) := popVal vm.stack
      let (a, s2) := popVal s1
      some (.cont { vm with stack := s2 ++ [.Bool (is_truthy a || is_truthy b)] })
  | .Jump t =>
      some (.cont { vm with frames := rest ++ [{ fr with ip := t }] })
  | .JumpIfFalse t =>
      let (c, s1) := popVal vm.stack
      if !(is_truthy c) then
        some (.cont { vm with stack := s1, frames := rest ++ [{ fr with ip := t }] })
      else
        some (.cont { vm with stack := s1 })
  | .JumpIfTrue t =>
      let (c, s1) := popVal vm.stack
      if is_truthy c then
        some (.cont { vm with stack := s1, frames := rest ++ [{ fr with ip := t }] })
      else
        some (.cont { vm with stack := s1 })
  | .LoadLocal idx =>
      match vm.stack[fr.bp + idx]? with
      | some v => some (.cont { vm with stack := vm.stack ++ [v] })
      | none => none
  | .StoreLocal idx =>
      let (v, s1) := popVal vm.stack
      if fr.bp + idx < s1.length then
        some (.cont { vm with stack := s1.set (fr.bp + idx) v })
      else none
  | .Call func_idx argc =>
      if argc ≤ vm.stack.length then
        match vm.functions[func_idx]? with
        | some func =>
            let new_bp := vm.stack.length - argc
            some (.cont { vm with
              stack := vm.stack ++ List.replicate (func.locals - argc) .Null,
              frames := vm.frames ++ [{ func_idx := func_idx, ip := 0, bp := new_bp }] })
        | none => none
      else none
  | .Return =>
      let (result, s1) := popVal vm.stack
      if rest.isEmpty then
        some (.done result)
      else
        some (.cont { vm with stack := s1.take fr.bp ++ [result], frames := rest })
  | .Pop =>
      let (_, s1) := popVal vm.stack
      some (.cont { vm with stack := s1 })
  | .Dup =>
      match vm.stack.getLast? with
      | some v => some (.cont { vm with stack := vm.stack ++ [v] })
      | none => none
  | .Print =>
      let (v, s1) := popVal vm.stack
      let line := match v with
        | .Int n => toString n
        | .Bool b => toString b
        | .Null => "null"
      some (.cont { vm with stack := s1, output := vm.output ++ [line] })
  | .Halt => some (.done .Null)

/-- One iteration of bytecode_vm.rs `BytecodeVM::run`: read the top frame
(`none` if there is none — the Rust `unwrap` panics), handle the implicit
return when `ip` has run off the end of the code, otherwise fetch the
opcode, advance `ip` and dispatch. -/
def step (vm : BytecodeVM) : Option StepRes :=
  match vm.frames.getLast? with
  | none => none
  | some fr =>
    let rest := vm.frames.dropLast
    match vm.functions[fr.func_idx]? with
    | none => none
    | some func =>
      if h : fr.ip < func.code.length then
        execOp func.code[fr.ip]
          { vm with frames := rest ++ [{ fr with ip := fr.ip + 1 }] }
          { fr with ip := fr.ip + 1 } rest
      else
        if vm.frames.length ≤ 1 then some (.done .Null)
        else some (.cont { vm with frames := rest })

/-- The `run` loop, with fuel to keep it total; `none` means a panic or
that fuel ran out before the program returned. -/
def run (fuel : Nat) (vm : BytecodeVM) : Option VMValue :=
  match fuel with
  | 0 => none
  | fuel + 1 =>
    match step vm with
    | none => none
    | some (.done v) => some v
    | some (.cont vm') => run fuel vm'

/-- HashMap `get` on the function-name map. -/
def lookupFuncIdx : List (String × Nat) → String → Option Nat
  | [], _ => none
  | (k, v) :: t, s => if k = s then some v else lookupFuncIdx t s

/-- bytecode_vm.rs `BytecodeVM::new`. -/
def BytecodeVM.new : BytecodeVM :=
  { functions := [], func_map := [], stack := [], frames := [], output := [] }

/-- bytecode_vm.rs `BytecodeVM::add_function`. -/
def add_function (vm : BytecodeVM) (func : CompiledFunc) : BytecodeVM :=
  { vm with func_map := vm.func_map ++ [(func.name, vm.functions.length)],
            functions := vm.functions ++ [func] }

/-- bytecode_vm.rs `BytecodeVM::call`: look the function up (`none`
models the `expect` panic), push the arguments as the first locals, pad
the remaining locals with Null, push the initial frame and run. -/
def call (fuel : Nat) (vm : BytecodeVM) (func_name : String) (args : List VMValue) :
    Option VMValue :=
  match lookupFuncIdx vm.func_map func_name with
  | none => none
  | some func_idx =>
    match vm.functions[func_idx]? with
    | none => none
    | some func =>
      let bp := vm.stack.length
      let vm1 : BytecodeVM :=
        { vm with
          stack := vm.stack ++ args ++ List.replicate (func.locals - func.arity) .Null,
          frames := vm.frames ++ [{ func_idx := func_idx, ip := 0, bp := bp }] }
      run fuel vm1

/-- bytecode_vm.rs `compile_fib`: the hand-compiled fibonacci function. -/
def compile_fib : CompiledFunc :=
  { name := "fib", arity := 1, locals := 1,
    code := [
      .LoadLocal 0, .Const 2, .Lt, .JumpIfFalse 6,
      .LoadLocal 0, .Return,
      .LoadLocal 0, .Const 1, .Sub, .Call 0 1,
      .LoadLocal 0, .Const 2, .Sub, .Call 0 1,
      .Add, .Return ] }

/-- The values the compiled fib program computes, as a recurrence on the
i64 representation (additions wrap like the VM's `Add`). -/
def fibSpec : Nat → Int
  | 0 => 0
  | 1 => 1
  | n + 2 => wrap64 (fibSpec (n + 1) + fibSpec n)

/-- The VM state reached while running `compile_fib`: the function table
holds exactly `compile_fib`, with the given value stack and frame
stack. -/
def fibSt (stk : List VMValue) (frames : List CallFrame) : BytecodeVM :=
  { functions := [compile_fib], func_map := [("fib", 0)],
    stack := stk, frames := frames, output := [] }

end Vm

namespace Interp

/-- parser.rs `Param`. -/
structure Param where
  name : String
  typ : Option String

/-- parser.rs `Expr`, restricted to the heap-free fragment the claims
exercise (no `MethodCall`, `Index`, `Field`, `Array`, `StructInit`,
`Await`, `StaticMethodCall`, whose evaluation needs the shared-heap
`Rc<RefCell<…>>` values). -/
inductive Expr where
  | Number (n : Int)
  | String (s : String)
  | Bool (b : Bool)
  | Null
  | Identifier (name : String)
  | BinOp (l : Expr) (op : String) (r : Expr)
  | UnaryOp (op : String) (e : Expr)
  | Call (name : String) (args : List Expr)

/-- parser.rs `Stmt`, same fragment (no `IndexAssign`/`FieldAssign`). -/
inductive Stmt where
  | Let (name : String) (typ : Option String) (e : Expr)
  | Assign (name : String) (e : Expr)
  | Return (e : Option Expr)
  | Print (e : Expr)
  | If (cond : Expr) (then_block : List Stmt) (else_block : Option (List Stmt))
  | While (cond : Expr) (body : List Stmt)
  | Break
  | Continue
  | Expr (e : Expr)
  | Block (stmts : List Stmt)
  | Defer (s : Stmt)

/-- interpreter.rs `Value`, heap-free variants (no `Array`/`Struct`). -/
inductive Value where
  | Null
  | Bool (b : Bool)
  | Int (n : Int)
  | String (s : String)
  | Function (name : String) (params : List Param) (body : Option (List Stmt))

/-- parser.rs `Function` (decorators, unused by execution, omitted). -/
structure Function where
  name : String
  params : List Param
  body : Option (List Stmt)
  is_async : Bool
  return_type : Option String

/-- Rust `str::parse::<i64>().unwrap_or(0)`: optional sign, all digits,
in-range — anything else (including overflow) gives 0. -/
def parseI64 (s : String) : Int :=
  let core := fun (digits : String) (sign : Int) =>
    match digits.toNat? with
    | some n =>
        let v := sign * (n : Int)
        if -9223372036854775808 ≤ v ∧ v < 9223372036854775808 then v else 0
    | none => 0
  if s.startsWith "-" then core (s.drop 1) (-1)
  else if s.startsWith "+" then core (s.drop 1) 1
  else core s 1

/-- interpreter.rs `Value::to_string_val` on the embedded variants. -/
def to_string_val : Value → String
  | .Null => "null"
  | .Bool b => toString b
  | .Int n => toString n
  | .String s => s
  | .Function name _ _ => "<fn " ++ name ++ ">"

/-- interpreter.rs `Value::is_truthy` (the `_ => true` arm covers
`Function`). -/
def is_truthy : Value → Bool
  | .Null => false
  | .Bool b => b
  | .Int n => n != 0
  | .String s => !s.isEmpty
  | .Function _ _ _ => true

/-- interpreter.rs `Value::as_int` (the `_ => 0` arm covers `Null` and
`Function`). -/
def as_int : Value → Int
  | .Int n => n
  | .Bool b => if b then 1 else 0
  | .String s => parseI64 s
  | _ => 0

/-- interpreter.rs `ScopeFrame`: bindings plus the deferred statements. -/
structure ScopeFrame where
  vars : List (String × Value)
  deferred : List Stmt

/-- HashMap `get` on a binding environment. -/
def lookupEnv : List (String × Value) → String → Option Value
  | [], _ => none
  | (k, v) :: t, s => if k = s then some v else lookupEnv t s

/-- HashMap `contains_key`. -/
def containsEnv (env : List (String × Value)) (s : String) : Bool :=
  (lookupEnv env s).isSome

/-- HashMap `insert` (replace-or-append). -/
def insertEnv : List (String × Value) → String → Value → List (String × Value)
  | [], s, v => [(s, v)]
  | (k, u) :: t, s, v => if k = s then (s, v) :: t else (k, u) :: insertEnv t s v

/-- HashMap `get` on the function table. -/
def lookupFn : List (String × Function) → String → Option Function
  | [], _ => none
  | (k, f) :: t, s => if k = s then some f else lookupFn t s

/-- interpreter.rs `Interpreter` state for the embedded fragment:
globals, the function table, the scope stack (index 0 outermost, the
innermost scope last, as in the Rust `Vec`) and the printed stdout
lines. -/
structure Interpreter where
  globals : List (String × Value)
  functions : List (String × Function)
  stack : List ScopeFrame
  output : List String

/-- interpreter.rs `Interpreter::new`: one empty scope frame. -/
def Interpreter.new (functions : List (String × Function)) : Interpreter :=
  { globals := [], functions := functions, stack := [⟨[], []⟩], output := [] }

/-- interpreter.rs `ControlFlow`. -/
inductive ControlFlow where
  | Return (v : Value)
  | Break
  | Continue

/-- Walk the scope stack innermost-first (`iter().rev()`); later frames
are tried before earlier ones. -/
def getVarFrames : List ScopeFrame → String → Option Value
  | [], _ => none
  | f :: rest, n =>
    match getVarFrames rest n with
    | some v => some v
    | none => lookupEnv f.vars n

/-- interpreter.rs `get_var`: scopes innermost-out, then globals, then
the function table (as a `Function` value), else Null. -/
def get_var (st : Interpreter) (name : String) : Value :=
  match getVarFrames st.stack name with
  | some v => v
  | none =>
    match lookupEnv st.globals name with
    | some v => v
    | none =>
      match lookupFn st.functions name with
      | some f => .Function f.name f.params f.body
      | none => .Null

/-- Assign into the innermost frame already binding `n` (`iter_mut()
.rev()`); `none` if no frame binds it. -/
def setVarFrames : List ScopeFrame → String → Value → Option (List ScopeFrame)
  | [], _, _ => none
  | f :: rest, n, v =>
    match setVarFrames rest n v with
    | some rest' => some (f :: rest')
    | none =>
      if containsEnv f.vars n then some ({ f with vars := insertEnv f.vars n v } :: rest)
      else none

/-- interpreter.rs `set_var`: innermost binding frame, else globals if
bound there, else create in the current (innermost) scope. -/
def set_var (st : Interpreter) (n : String) (v : Value) : Interpreter :=
  match setVarFrames st.stack n v with
  | some stack' => { st with stack := stack' }
  | none =>
    if containsEnv st.globals n then { st with globals := insertEnv st.globals n v }
    else
      match st.stack.getLast? with
      | some f =>
          { st with stack := st.stack.dropLast ++ [{ f with vars := insertEnv f.vars n v }] }
      | none => st

/-- interpreter.rs `declare_var`: always write the innermost scope. -/
def declare_var (st : Interpreter) (n : String) (v : Value) : Interpreter :=
  match st.stack.getLast? with
  | some f =>
      { st with stack := st.stack.dropLast ++ [{ f with vars := insertEnv f.vars n v }] }
  | none => st

/-- interpreter.rs `push_scope`. -/
def push_scope (st : Interpreter) : Interpreter :=
  { st with stack := st.stack ++ [⟨[], []⟩] }

/-- interpreter.rs `Stmt::Defer` arm: push onto the innermost scope's
deferred list. -/
def push_deferred (st : Interpreter) (s : Stmt) : Interpreter :=
  match st.stack.getLast? with
  | some f =>
      { st with stack := st.stack.dropLast ++ [{ f with deferred := f.deferred ++ [s] }] }
  | none => st

/-- interpreter.rs `eval_binop` on the embedded variants.  Rust i64
arithmetic wraps (release mode), divide/modulo by zero gives 0. -/
def eval_binop (left : Value) (op : String) (right : Value) : Except String Value :=
  if op = "+" then
    match left, right with
    | .Int a, .Int b => .ok (.Int (wrap64 (a + b)))
    | .String a, .String b => .ok (.String (a ++ b))
    | .String a, _ => .ok (.String (a ++ to_string_val right))
    | _, .String b => .ok (.String (to_string_val left ++ b))
    | _, _ => .ok (.Int (wrap64 (as_int left + as_int right)))
  else if op = "*" then .ok (.Int (wrap64 (as_int left * as_int right)))
  else if op = "-" then .ok (.Int (wrap64 (as_int left - as_int right)))
  else if op = "/" then
    let r := as_int right
    if r = 0 then .ok (.Int 0) else .ok (.Int (Int.tdiv (as_int left) r))
  else if op = "%" then
    let r := as_int right
    if r = 0 then .ok (.Int 0) else .ok (.Int (Int.tmod (as_int left) r))
  else if op = "==" then
    match left, right with
    | .Int a, .Int b => .ok (.Bool (a == b))
    | .String a, .String b => .ok (.Bool (a == b))
    | .Bool a, .Bool b => .ok (.Bool (a == b))
    | _, _ => .ok (.Bool false)
  else if op = "!=" then
    match left, right with
    | .Int a, .Int b => .ok (.Bool (a != b))
    | .String a, .String b => .ok (.Bool (a != b))
    | .Bool a, .Bool b => .ok (.Bool (a != b))
    | _, _ => .ok (.Bool true)
  else if op = "<" then .ok (.Bool (decide (as_int left < as_int right)))
  else if op = ">" then .ok (.Bool (decide (as_int left > as_int right)))
  else if op = "<=" then .ok (.Bool (decide (as_int left ≤ as_int right)))
  else if op = ">=" then .ok (.Bool (decide (as_int left ≥ as_int right)))
  else if op = "&&" then .ok (.Bool (is_truthy left && is_truthy right))
  else if op = "||" then .ok (.Bool (is_truthy left || is_truthy right))
  else .error ("Unknown operator: " ++ op)

/-- The `map_err` idiom wrapped around every statement-level `eval_expr`:
on an evaluation error, print `Runtime Error: …` and convert the error
into `ControlFlow::Return(Null)`. -/
def runtimeError (st : Interpreter) (msg : String) : Interpreter × Option ControlFlow :=
  ({ st with output := st.output ++ ["Runtime Error: " ++ msg] }, some (.Return .Null))

mutual

/-- interpreter.rs `exec_stmt` (fueled; `none` = fuel exhausted). -/
def exec_stmt : Nat → Interpreter → Stmt → Option (Interpreter × Option ControlFlow)
  | 0, _, _ => none
  | fuel + 1, st, stmt =>
    match stmt with
    | .Let name _ e =>
      match eval_expr fuel st e with
      | none => none
      | some (st1, .error msg) => some (runtimeError st1 msg)
      | some (st1, .ok v) => some (declare_var st1 name v, none)
    | .Assign name e =>
      match eval_expr fuel st e with
      | none => none
      | some (st1, .error msg) => some (runtimeError st1 msg)
      | some (st1, .ok v) => some (set_var st1 name v, none)
    | .Return eOpt =>
      match eOpt with
      | some e =>
        match eval_expr fuel st e with
        | none => none
        | some (st1, .error msg) => some (runtimeError st1 msg)
        | some (st1, .ok v) => some (st1, some (.Return v))
      | none => some (st, some (.Return .Null))
    | .Print e =>
      match eval_expr fuel st e with
      | none => none
      | some (st1, .error msg) => some (runtimeError st1 msg)
      | some (st1, .ok v) =>
          some ({ st1 with output := st1.output ++ [to_string_val v] }, none)
    | .If cond then_block else_block =>
      match eval_expr fuel st cond with
      | none => none
      | some (st1, .error msg) => some (runtimeError st1 msg)
      | some (st1, .ok cv) =>
        if is_truthy cv then
          match exec_stmts fuel (push_scope st1) then_block with
          | none => none
          | some (st2, res) =>
            match pop_scope fuel st2 with
            | none => none
            | some (st3, popRes) =>
              match res with
              | some cf => some (st3, some cf)
              | none => some (st3, popRes)
        else
          match else_block with
          | some else_stmts =>
            match exec_stmts fuel (push_scope st1) else_stmts with
            | none => none
            | some (st2, res) =>
              match pop_scope fuel st2 with
              | none => none
              | some (st3, popRes) =>
                match res with
                | some cf => some (st3, some cf)
                | none => some (st3, popRes)
          | none => some (st1, none)
    | .While cond body =>
      match eval_expr fuel st cond with
      | none => none
      | some (st1, .error msg) => some (runtimeError st1 msg)
      | some (st1, .ok cv) =>
        if is_truthy cv then
          match exec_stmts fuel (push_scope st1) body with
          | none => none
          | some (st2, res) =>
            match pop_scope fuel st2 with
            | none => none
            | some (st3, popRes) =>
              match popRes with
              | some e => some (st3, some e)
              | none =>
                match res with
                | none => exec_stmt fuel st3 (.While cond body)
                | some .Break => some (st3, none)
                | some .Continue => exec_stmt fuel st3 (.While cond body)
                | some e => some (st3, some e)
        else some (st1, none)
    | .Break => some (st, some .Break)
    | .Continue => some (st, some .Continue)
    | .Expr e =>
      match eval_expr fuel st e with
      | none => none
      | some (st1, .error msg) => some (runtimeError st1 msg)
      | some (st1, .ok _) => some (st1, none)
    | .Block stmts =>
      match exec_stmts fuel (push_scope st) stmts with
      | none => none
      | some (st1, res) =>
        match pop_scope fuel st1 with
        | none => none
        | some (st2, popRes) =>
          match res with
          | some cf => some (st2, some cf)
          | none => some (st2, popRes)
    | .Defer s => some (push_deferred st s, none)

/-- interpreter.rs `exec_stmts`: run in order, stop at the first
control-flow signal. -/
def exec_stmts : Nat → Interpreter → List Stmt → Option (Interpreter × Option ControlFlow)
  | 0, _, _ => none
  | _ + 1, st, [] => some (st, none)
  | fuel + 1, st, s :: rest =>
    match exec_stmt fuel st s with
    | none => none
    | some (st1, some cf) => some (st1, some cf)
    | some (st1, none) => exec_stmts fuel st1 rest

/-- interpreter.rs `pop_scope`: no-op on the outermost scope; otherwise
take the innermost scope's deferred list, run it in reverse insertion
order (the last error wins, successes keep the previous result), then
drop the scope. -/
def pop_scope : Nat → Interpreter → Option (Interpreter × Option ControlFlow)
  | 0, _ => none
  | fuel + 1, st =>
    if st.stack.length ≤ 1 then some (st, none)
    else
      match st.stack.getLast? with
      | none => some (st, none)
      | some sc =>
        let st1 : Interpreter :=
          { st with stack := st.stack.dropLast ++ [{ sc with deferred := [] }] }
        match run_deferred fuel st1 sc.deferred.reverse none with
        | none => none
        | some (st2, final_result) =>
            some ({ st2 with stack := st2.stack.dropLast }, final_result)

/-- The deferred-statement loop inside `pop_scope`: every statement runs;
an `Err` overwrites `final_result`, an `Ok` leaves it. -/
def run_deferred : Nat → Interpreter → List Stmt → Option ControlFlow →
    Option (Interpreter × Option ControlFlow)
  | 0, _, _, _ => none
  | _ + 1, st, [], acc => some (st, acc)
  | fuel + 1, st, s :: rest, acc =>
    match exec_stmt fuel st s with
    | none => none
    | some (st1, none) => run_deferred fuel st1 rest acc
    | some (st1, some e) => run_deferred fuel st1 rest (some e)

/-- interpreter.rs `eval_expr` on the embedded fragment. -/
def eval_expr : Nat → Interpreter → Expr → Option (Interpreter × Except String Value)
  | 0, _, _ => none
  | fuel + 1, st, e =>
    match e with
    | .Number n => some (st, .ok (.Int n))
    | .String s => some (st, .ok (.String s))
    | .Bool b => some (st, .ok (.Bool b))
    | .Null => some (st, .ok .Null)
    | .Identifier name => some (st, .ok (get_var st name))
    | .BinOp l op r =>
      match eval_expr fuel st l with
      | none => none
      | some (st1, .error msg) => some (st1, .error msg)
      | some (st1, .ok lv) =>
        match eval_expr fuel st1 r with
        | none => none
        | some (st2, .error msg) => some (st2, .error msg)
        | some (st2, .ok rv) => some (st2, eval_binop lv op rv)
    | .UnaryOp op inner =>
      match eval_expr fuel st inner with
      | none => none
      | some (st1, .error msg) => some (st1, .error msg)
      | some (st1, .ok v) =>
        if op = "!" then some (st1, .ok (.Bool (!(is_truthy v))))
        else some (st1, .ok (.Int (wrap64 (-(as_int v)))))
    | .Call name args =>
      match eval_exprs fuel st args with
      | none => none
      | some (st1, .error msg) => some (st1, .error msg)
      | some (st1, .ok arg_vals) => call_function fuel st1 name arg_vals

/-- The `args.iter().map(eval_expr).collect::<Result<…>>()` idiom: stop
at the first error. -/
def eval_exprs : Nat → Interpreter → List Expr →
    Option (Interpreter × Except String (List Value))
  | 0, _, _ => none
  | _ + 1, st, [] => some (st, .ok [])
  | fuel + 1, st, e :: rest =>
    match eval_expr fuel st e with
    | none => none
    | some (st1, .error msg) => some (st1, .error msg)
    | some (st1, .ok v) =>
      match eval_exprs fuel st1 rest with
      | none => none
      | some (st2, .error msg) => some (st2, .error msg)
      | some (st2, .ok vs) => some (st2, .ok (v :: vs))

/-- interpreter.rs `call_function`, user-defined names only (the builtin
intrinsics that precede this lookup in the source are outside the
embedded fragment): the function table first, then a variable holding a
`Function` value, else `Undefined function`. -/
def call_function : Nat → Interpreter → String → List Value →
    Option (Interpreter × Except String Value)
  | 0, _, _, _ => none
  | fuel + 1, st, name, args =>
    match lookupFn st.functions name with
    | some f => execute_function fuel st f args
    | none =>
      match get_var st name with
      | .Function n p b =>
          execute_function fuel st
            { name := n, params := p, body := b, is_async := false, return_type := none }
            args
      | _ => some (st, .error ("Undefined function: " ++ name))

/-- Bind parameters to arguments in the fresh scope
(`args.get(i).cloned().unwrap_or(Null)`). -/
def declare_params : Interpreter → List Param → List Value → Interpreter
  | st, [], _ => st
  | st, p :: ps, args =>
    declare_params (declare_var st p.name (args.headD .Null)) ps (args.drop 1)

/-- interpreter.rs `execute_function`: new scope, parameters declared,
body run, scope popped (running deferred statements), and the result
selected: a body `Return` wins, else a `Return` raised by `pop_scope`,
else Null. -/
def execute_function : Nat → Interpreter → Function → List Value →
    Option (Interpreter × Except String Value)
  | 0, _, _, _ => none
  | fuel + 1, st, func, args =>
    let st1 := declare_params (push_scope st) func.params args
    match (match func.body with
           | some body => exec_stmts fuel st1 body
           | none => some (st1, none)) with
    | none => none
    | some (st2, result) =>
      match pop_scope fuel st2 with
      | none => none
      | some (st3, pop_res) =>
        match result, pop_res with
        | some (.Return v), _ => some (st3, .ok v)
        | none, some (.Return v) => some (st3, .ok v)
        | some _, _ => some (st3, .ok .Null)
        | none, _ => some (st3, .ok .Null)

end

end Interp

namespace Gc

/-- gc.rs `GcValue`.  `Ref` holds an `ObjectId` (usize, modelled Nat). -/
inductive GcValue where
  | Null
  | Bool (b : Bool)
  | Int (n : Int)
  | String (s : String)
  | Ref (id : Nat)
  deriving DecidableEq

/-- gc.rs `GcObject`: arrays of values, or structs with a name and a
field map (association list standing for the Rust HashMap). -/
inductive GcObject where
  | Array (items : List GcValue)
  | Struct (name : String) (fields : List (String × GcValue))
  deriving DecidableEq

/-- The object ids a `GcValue` list contributes as children
(`filter_map` over `GcValue::Ref`). -/
def refsOf (vs : List GcValue) : List Nat :=
  vs.filterMap fun v => match v with | .Ref r => some r | _ => none

/-- The child ids `mark` follows out of an object: refs in array
elements, or refs in struct field values. -/
def children : GcObject → List Nat
  | .Array items => refsOf items
  | .Struct _ fields => refsOf (fields.map Prod.snd)

/-- The heap: `ObjectId → ObjectHeader` as an association list (the
transient `marked` bit lives only inside a collection, so entries carry
just the object). -/
def Heap := List (Nat × GcObject)

/-- HashMap `get` on the heap. -/
def lookupObj : Heap → Nat → Option GcObject
  | [], _ => none
  | (k, o) :: t, id => if k = id then some o else lookupObj t id

/-- The ids present in the heap. -/
def heapIds (heap : Heap) : List Nat := heap.map Prod.fst

/-- gc.rs `GarbageCollector` (the `marked` bits are reset at the start of
every mark phase, so they are not part of the persistent state). -/
structure GarbageCollector where
  heap : Heap
  next_id : Nat
  roots : List Nat
  threshold : Nat
  allocated : Nat

/-- gc.rs `GarbageCollector::new`. -/
def GarbageCollector.new : GarbageCollector :=
  { heap := [], next_id := 1, roots := [], threshold := 1000, allocated := 0 }

/-- gc.rs `mark`, defunctionalised: the worklist holds the ids still to
visit (children are prepended, giving the same depth-first order as the
Rust recursion), `m` the ids already marked.  Already-marked and absent
ids are skipped, which handles cycles. -/
def markGo (heap : Heap) : List Nat → List Nat → List Nat
  | [], m => m
  | id :: rest, m =>
    if id ∈ m then markGo heap rest m
    else
      match hl : lookupObj heap id with
      | none => markGo heap rest m
      | some o => markGo heap (children o ++ rest) (id :: m)
termination_by s m => (((heapIds heap).toFinset \ m.toFinset).card, s.length)
decreasing_by
  · apply Prod.Lex.right
    simp
  · apply Prod.Lex.right
    simp
  · apply Prod.Lex.left
    rename_i hm
    have hk : id ∈ heapIds heap := by
      clear * - hl
      induction heap with
      | nil => exact absurd hl (by simp [lookupObj])
      | cons hd t ih =>
          rcases hd with ⟨k, ob⟩
          simp only [lookupObj] at hl
          by_cases hc : k = id
          · simp [heapIds, hc]
          · rw [if_neg hc] at hl
            simp only [heapIds, List.map_cons, List.mem_cons]
            exact Or.inr (ih hl)
    apply Finset.card_lt_card
    constructor
    · intro x hx
      simp only [List.toFinset_cons, Finset.mem_sdiff, Finset.mem_insert,
        List.mem_toFinset] at hx ⊢
      exact ⟨hx.1, fun hxm => hx.2 (Or.inr hxm)⟩
    · intro hsub
      have hid : id ∈ (heapIds heap).toFinset \ m.toFinset := by
        simp only [Finset.mem_sdiff, List.mem_toFinset]
        exact ⟨hk, hm⟩
      have := hsub hid
      simp at this

/-- gc.rs `mark_phase`: all marks start cleared, then every root is
traversed (sequentially, sharing the accumulated marks). -/
def mark_phase (heap : Heap) (roots : List Nat) : List Nat :=
  markGo heap roots []

/-- gc.rs `sweep_phase`: keep exactly the marked entries. -/
def sweep_phase (heap : Heap) (marked : List Nat) : Heap :=
  heap.filter fun p => p.1 ∈ marked

/-- gc.rs `collect`: mark from the roots, sweep, reset the allocation
counter. -/
def collect (gc : GarbageCollector) : GarbageCollector :=
  { gc with heap := sweep_phase gc.heap (mark_phase gc.heap gc.roots),
            allocated := 0 }

/-- gc.rs `alloc`: insert under a fresh id, bump the counters, and run a
collection if the allocation counter reached the threshold.  Returns the
id and the new state. -/
def alloc (gc : GarbageCollector) (obj : GcObject) : Nat × GarbageCollector :=
  let id := gc.next_id
  let gc1 : GarbageCollector :=
    { gc with heap := (id, obj) :: gc.heap, next_id := gc.next_id + 1,
              allocated := gc.allocated + 1 }
  (id, if gc1.allocated ≥ gc1.threshold then collect gc1 else gc1)

/-- gc.rs `add_root` (deduplicating insert). -/
def add_root (gc : GarbageCollector) (id : Nat) : GarbageCollector :=
  if id ∈ gc.roots then gc else { gc with roots := gc.roots ++ [id] }

/-- gc.rs `remove_root` (`retain(|&r| r != id)`). -/
def remove_root (gc : GarbageCollector) (id : Nat) : GarbageCollector :=
  { gc with roots := gc.roots.filter fun r => r ≠ id }

/-- A mutator action against the collector: the operations the claim
quantifies over. -/
inductive Op where
  | alloc (obj : GcObject)
  | add_root (id : Nat)
  | remove_root (id : Nat)

/-- Run a sequence of mutator actions. -/
def runOps : List Op → GarbageCollector → GarbageCollector
  | [], gc => gc
  | .alloc obj :: rest, gc => runOps rest (alloc gc obj).2
  | .add_root id :: rest, gc => runOps rest (add_root gc id)
  | .remove_root id :: rest, gc => runOps rest (remove_root gc id)

/-- Reachability from a set of starting ids: the start ids themselves,
plus everything transitively referenced through Array elements and
Struct field values of present objects. -/
inductive ReachFrom (heap : Heap) (start : List Nat) : Nat → Prop
  | root {r : Nat} : r ∈ start → ReachFrom heap start r
  | child {a b : Nat} {o : GcObject} : ReachFrom heap start a →
      lookupObj heap a = some o → b ∈ children o → ReachFrom heap start b

end Gc

/-- Spec scenario 3:
`fn f() { defer print(1); defer print(2); print(3); return; }`. -/
def defer_order_fn : Interp.Function :=
  { name := "f", params := [],
    body := some [
      .Defer (.Print (.Number 1)),
      .Defer (.Print (.Number 2)),
      .Print (.Number 3),
      .Return none],
    is_async := false, return_type := none }

/-- `fn g() { defer return 2; }`: the body completes normally and a
deferred statement raises a Return. -/
def defer_return_only_fn : Interp.Function :=
  { name := "g", params := [],
    body := some [.Defer (.Return (some (.Number 2)))],
    is_async := false, return_type := none }

/-- `fn h() { defer return 2; return 1; }`: both the body and a deferred
statement raise a Return. -/
def defer_return_fn : Interp.Function :=
  { name := "h", params := [],
    body := some [.Defer (.Return (some (.Number 2))), .Return (some (.Number 1))],
    is_async := false, return_type := none }

/-! ## Helper lemmas -/

theorem getLast?_append_single {α : Type} (l : List α) (a : α) :
    (l ++ [a]).getLast? = some a := by
  simp

theorem dropLast_append_single {α : Type} (l : List α) (a : α) :
    (l ++ [a]).dropLast = l := by
  simp

theorem popVal_append (s : List Vm.VMValue) (v : Vm.VMValue) :
    Vm.popVal (s ++ [v]) = (v, s) := by
  simp [Vm.popVal]

theorem popVal_nil : Vm.popVal [] = (.Null, []) := rfl

theorem getElem?_append_len {α : Type} (s l : List α) (i : Nat) :
    (s ++ l)[s.length + i]? = l[i]? := by
  rw [List.getElem?_append_right (by omega)]
  congr 1
  omega

theorem take_append_len {α : Type} (s l : List α) :
    (s ++ l).take s.length = s := by
  simp [List.take_left]

/-! ## C4 — integer tagging round-trip and pointer discrimination -/

/-- C4: for every 63-bit signed integer `n`, `to_int (from_int n) = n`
and `is_int (from_int n)`; and every non-zero 8-byte-aligned pointer
value `p`, seen as an i64, satisfies `is_ptr p` and not `is_int p`. -/
theorem tagging_roundtrip_and_pointers :
    (∀ n : Int, -(2 ^ 62) ≤ n → n < 2 ^ 62 →
      Rt.to_int (Rt.from_int n) = n ∧ Rt.is_int (Rt.from_int n) = true) ∧
    (∀ p : Int, p ≠ 0 → (8 : Int) ∣ p →
      Rt.is_ptr p = true ∧ Rt.is_int p = false) := by
  constructor
  · intro n h1 h2
    have hw : wrap64 (2 * n) = 2 * n := by
      unfold wrap64
      omega
    constructor
    · rw [Rt.to_int, Rt.from_int, hw, Int.fdiv_eq_ediv _ (by omega)]
      omega
    · rw [Rt.is_int, Rt.from_int, hw]
      simp only [beq_iff_eq]
      omega
  · intro p hp hdvd
    obtain ⟨k, rfl⟩ := hdvd
    refine ⟨?_, ?_⟩
    · rw [Rt.is_ptr]
      simp only [Bool.and_eq_true, beq_iff_eq, bne_iff_ne, ne_eq]
      exact ⟨by omega, hp⟩
    · rw [Rt.is_int]
      simp only [beq_eq_false_iff_ne, ne_eq]
      omega

/-- Witness for C4 at `n = 5` and `p = 16`. -/
theorem tagging_roundtrip_and_pointers_witness :
    (Rt.to_int (Rt.from_int 5) = 5 ∧ Rt.is_int (Rt.from_int 5) = true) ∧
    (Rt.is_ptr 16 = true ∧ Rt.is_int 16 = false) :=
  ⟨tagging_roundtrip_and_pointers.1 5 (by norm_num) (by norm_num),
   tagging_roundtrip_and_pointers.2 16 (by norm_num) (by norm_num)⟩

/-! ## C7 — JIT hot-threshold promotion -/

/-- C7: with `hot_threshold = 5` on a fresh `JitCompiler`, the first four
`record_call("f")` return false, the fifth returns true, after which
`should_compile("f")`; compiling `Double` and calling the compiled code
on 21 gives 42. -/
theorem jit_hot_threshold_promotion :
    (Jit.record_call (Jit.set_hot_threshold Jit.JitCompiler.new 5) "f").2 = false ∧
    (Jit.record_call (Jit.record_call
        (Jit.set_hot_threshold Jit.JitCompiler.new 5) "f").1 "f").2 = false ∧
    (Jit.record_call (Jit.record_call (Jit.record_call
        (Jit.set_hot_threshold Jit.JitCompiler.new 5) "f").1 "f").1 "f").2 = false ∧
    (Jit.record_call (Jit.record_call (Jit.record_call (Jit.record_call
        (Jit.set_hot_threshold Jit.JitCompiler.new 5) "f").1 "f").1 "f").1 "f").2 = false ∧
    (Jit.record_call (Jit.record_call (Jit.record_call (Jit.record_call (Jit.record_call
        (Jit.set_hot_threshold Jit.JitCompiler.new 5) "f").1 "f").1 "f").1 "f").1 "f").2 = true ∧
    Jit.should_compile
      (Jit.record_call (Jit.record_call (Jit.record_call (Jit.record_call (Jit.record_call
        (Jit.set_hot_threshold Jit.JitCompiler.new 5) "f").1 "f").1 "f").1 "f").1 "f").1
      "f" = true ∧
    Jit.call_compiled
      (Jit.compile_simple_function
        (Jit.record_call (Jit.record_call (Jit.record_call (Jit.record_call (Jit.record_call
          (Jit.set_hot_threshold Jit.JitCompiler.new 5) "f").1 "f").1 "f").1 "f").1 "f").1
        "f" .Double)
      "f" 21 = some 42 := by
  decide

/-! ## C6 — divide/modulo by zero yields 0 in every tier -/

/-- C6: a zero divisor gives integer 0 and no error in all three tiers:
the VM's `Div`/`Mod` opcodes, the interpreter's `/` and `%` operators,
and the runtime's `argon_div`. -/
theorem div_mod_by_zero_yields_zero :
    (∀ (vm : Vm.BytecodeVM) (fr : Vm.CallFrame) (rest : List Vm.CallFrame)
        (s : List Vm.VMValue) (a b : Vm.VMValue),
      vm.stack = s ++ [a, b] → Vm.as_int b = 0 →
      Vm.execOp .Div vm fr rest = some (.cont { vm with stack := s ++ [.Int 0] }) ∧
      Vm.execOp .Mod vm fr rest = some (.cont { vm with stack := s ++ [.Int 0] })) ∧
    (∀ l r : Interp.Value, Interp.as_int r = 0 →
      Interp.eval_binop l "/" r = .ok (.Int 0) ∧
      Interp.eval_binop l "%" r = .ok (.Int 0)) ∧
    (∀ a b : Int, Rt.to_int b = 0 → Rt.argon_div a b = Rt.from_int 0) := by
  refine ⟨?_, ?_, ?_⟩
  · intro vm fr rest s a b hstack hb
    have h2 : s ++ [a, b] = (s ++ [a]) ++ [b] := by simp
    constructor
    · rw [Vm.execOp, hstack, h2]
      simp only [popVal_append]
      simp [hb]
    · rw [Vm.execOp, hstack, h2]
      simp only [popVal_append]
      simp [hb]
  · intro l r hr
    constructor
    · cases l <;> cases r <;> simp_all [Interp.eval_binop, Interp.as_int]
    · cases l <;> cases r <;> simp_all [Interp.eval_binop, Interp.as_int]
  · intro a b hb
    rw [Rt.argon_div]
    simp [hb]

/-- Witness for C6 at concrete inputs (`7 / 0` in each tier). -/
theorem div_mod_by_zero_yields_zero_witness :
    (Vm.execOp .Div ⟨[], [], [.Int 7, .Int 0], [], []⟩ ⟨0, 0, 0⟩ [] =
      some (.cont ⟨[], [], [.Int 0], [], []⟩) ∧
     Vm.execOp .Mod ⟨[], [], [.Int 7, .Int 0], [], []⟩ ⟨0, 0, 0⟩ [] =
      some (.cont ⟨[], [], [.Int 0], [], []⟩)) ∧
    (Interp.eval_binop (.Int 7) "/" (.Int 0) = .ok (.Int 0) ∧
     Interp.eval_binop (.Int 7) "%" (.Int 0) = .ok (.Int 0)) ∧
    Rt.argon_div (Rt.from_int 7) (Rt.from_int 0) = Rt.from_int 0 := by
  refine ⟨?_, ?_, ?_⟩
  · have h := div_mod_by_zero_yields_zero.1 ⟨[], [], [.Int 7, .Int 0], [], []⟩
      ⟨0, 0, 0⟩ [] [] (.Int 7) (.Int 0) rfl rfl
    exact h
  · exact div_mod_by_zero_yields_zero.2.1 (.Int 7) (.Int 0) rfl
  · exact div_mod_by_zero_yields_zero.2.2 (Rt.from_int 7) (Rt.from_int 0) (by decide)

/-! ## C10 — popping an empty VM stack yields Null, opcodes never abort -/

/-- C10: `pop` on an empty value stack yields Null instead of failing,
and every pop-based opcode (arithmetic, comparison, logic, `Pop`,
`Print`, conditional jumps, `Return`) treats the missing operands as
Null — integer 0, falsy — and continues execution instead of aborting. -/
theorem vm_pop_empty_yields_null :
    (Vm.popVal [] = (.Null, []) ∧ Vm.as_int .Null = 0 ∧ Vm.is_truthy .Null = false) ∧
    (∀ (vm : Vm.BytecodeVM) (fr : Vm.CallFrame) (rest : List Vm.CallFrame) (t : Nat),
      vm.stack = [] →
      Vm.execOp .Add vm fr rest = some (.cont { vm with stack := [.Int 0] }) ∧
      Vm.execOp .Sub vm fr rest = some (.cont { vm with stack := [.Int 0] }) ∧
      Vm.execOp .Mul vm fr rest = some (.cont { vm with stack := [.Int 0] }) ∧
      Vm.execOp .Div vm fr rest = some (.cont { vm with stack := [.Int 0] }) ∧
      Vm.execOp .Mod vm fr rest = some (.cont { vm with stack := [.Int 0] }) ∧
      Vm.execOp .Neg vm fr rest = some (.cont { vm with stack := [.Int 0] }) ∧
      Vm.execOp .Lt vm fr rest = some (.cont { vm with stack := [.Bool false] }) ∧
      Vm.execOp .Gt vm fr rest = some (.cont { vm with stack := [.Bool false] }) ∧
      Vm.execOp .Le vm fr rest = some (.cont { vm with stack := [.Bool true] }) ∧
      Vm.execOp .Ge vm fr rest = some (.cont { vm with stack := [.Bool true] }) ∧
      Vm.execOp .Eq vm fr rest = some (.cont { vm with stack := [.Bool true] }) ∧
      Vm.execOp .Ne vm fr rest = some (.cont { vm with stack := [.Bool false] }) ∧
      Vm.execOp .Not vm fr rest = some (.cont { vm with stack := [.Bool true] }) ∧
      Vm.execOp .And vm fr rest = some (.cont { vm with stack := [.Bool false] }) ∧
      Vm.execOp .Or vm fr rest = some (.cont { vm with stack := [.Bool false] }) ∧
      Vm.execOp .Pop vm fr rest = some (.cont vm) ∧
      Vm.execOp .Print vm fr rest =
        some (.cont { vm with output := vm.output ++ ["null"] }) ∧
      Vm.execOp (.JumpIfFalse t) vm fr rest =
        some (.cont { vm with frames := rest ++ [{ fr with ip := t }] }) ∧
      Vm.execOp (.JumpIfTrue t) vm fr rest = some (.cont vm) ∧
      Vm.execOp .Return vm fr rest =
        some (if rest.isEmpty then .done .Null
              else .cont { vm with stack := [.Null], frames := rest })) := by
  refine ⟨⟨rfl, rfl, rfl⟩, ?_⟩
  intro vm fr rest t hstack
  obtain ⟨fns, fm, stk, frs, out⟩ := vm
  simp only at hstack
  subst hstack
  refine ⟨?_, ?_, ?_, ?_, ?_, ?_, ?_, ?_, ?_, ?_, ?_, ?_, ?_, ?_, ?_, ?_, ?_, ?_, ?_, ?_⟩ <;>
    simp [Vm.execOp, Vm.popVal, Vm.as_int, Vm.is_truthy, wrap64, apply_ite]

/-- Witness for C10 at a concrete two-frame VM state with an empty
stack. -/
theorem vm_pop_empty_yields_null_witness :
    Vm.execOp .Add ⟨[], [], [], [⟨0, 3, 0⟩], []⟩ ⟨0, 7, 0⟩ [⟨0, 3, 0⟩] =
      some (.cont ⟨[], [], [.Int 0], [⟨0, 3, 0⟩], []⟩) ∧
    Vm.execOp .Return ⟨[], [], [], [⟨0, 3, 0⟩], []⟩ ⟨0, 7, 0⟩ [⟨0, 3, 0⟩] =
      some (.cont ⟨[], [], [.Null], [⟨0, 3, 0⟩], []⟩) := by
  have h := (vm_pop_empty_yields_null.2 ⟨[], [], [], [⟨0, 3, 0⟩], []⟩ ⟨0, 7, 0⟩
    [⟨0, 3, 0⟩] 0 rfl)
  exact ⟨h.1, by simpa using h.2.2.2.2.2.2.2.2.2.2.2.2.2.2.2.2.2.2.2⟩

/-! ## C2 — Return instruction semantics -/

/-- C2: executing `Return` pops the result, pops the current frame,
truncates the value stack to that frame's base pointer and pushes the
result back; with no frames left the result goes to the host, otherwise
the caller's operand stack (the part below the popped frame's base
pointer) is intact and has exactly the one new entry. -/
theorem vm_return_semantics :
    ∀ (vm : Vm.BytecodeVM) (fs : List Vm.CallFrame) (fr : Vm.CallFrame)
      (func : Vm.CompiledFunc),
      vm.frames = fs ++ [fr] →
      vm.functions[fr.func_idx]? = some func →
      func.code[fr.ip]? = some .Return →
      Vm.step vm = some (
        if fs.isEmpty then .done (Vm.popVal vm.stack).1
        else .cont { vm with
          stack := ((Vm.popVal vm.stack).2).take fr.bp ++ [(Vm.popVal vm.stack).1],
          frames := fs }) := by
  intro vm fs fr func hframes hfunc hcode
  have hip : fr.ip < func.code.length := by
    have := List.getElem?_eq_some_iff.mp hcode
    exact this.1
  have hget : func.code[fr.ip] = .Return := by
    have h2 := List.getElem?_eq_some_iff.mp hcode
    obtain ⟨hlt, heq⟩ := h2
    exact heq
  rw [Vm.step, hframes, getLast?_append_single]
  simp only [dropLast_append_single, hfunc, hip, reduceDIte, hget]
  rw [Vm.execOp]
  cases fs with
  | nil => simp
  | cons f0 ftail => simp

/-- Witness for C2: a two-frame VM stopping at `Return`; the callee's
result 9 replaces everything above the caller's base pointer. -/
theorem vm_return_semantics_witness :
    Vm.step ⟨[⟨"g", 0, 0, [.Return]⟩], [("g", 0)], [.Int 7, .Int 9],
        [⟨0, 5, 0⟩, ⟨0, 0, 1⟩], []⟩ =
      some (.cont ⟨[⟨"g", 0, 0, [.Return]⟩], [("g", 0)], [.Int 7, .Int 9],
        [⟨0, 5, 0⟩], []⟩) := by
  have h := vm_return_semantics
    ⟨[⟨"g", 0, 0, [.Return]⟩], [("g", 0)], [.Int 7, .Int 9],
      [⟨0, 5, 0⟩, ⟨0, 0, 1⟩], []⟩
    [⟨0, 5, 0⟩] ⟨0, 0, 1⟩ ⟨"g", 0, 0, [.Return]⟩ rfl rfl rfl
  simpa using h

/-! ## C8 — argon_eq semantics -/

/-- C8: on a heap whose mapped addresses are all valid pointer values,
`argon_eq` returns tagged 1 exactly for identical machine values or for
two String objects with equal contents, and tagged 0 for every other
pair (distinct Arrays with equal contents, mixed kinds, …). -/
theorem argon_eq_semantics :
    ∀ (mem : Rt.Mem) (a b : Int),
      (∀ p o, Rt.lookupMem mem p = some o → Rt.is_ptr p = true) →
      (Rt.is_ptr a = true → (Rt.lookupMem mem a).isSome) →
      (Rt.is_ptr b = true → (Rt.lookupMem mem b).isSome) →
      (Rt.argon_eq mem a b = some (Rt.from_int 1) ↔
        a = b ∨ ∃ sa sb, Rt.lookupMem mem a = some (.Str sa) ∧
          Rt.lookupMem mem b = some (.Str sb) ∧ sa = sb) ∧
      (Rt.argon_eq mem a b = some (Rt.from_int 1) ∨
        Rt.argon_eq mem a b = some (Rt.from_int 0)) := by
  intro mem a b hwf ha hb
  by_cases hab : a = b
  · subst hab
    constructor
    · simp [Rt.argon_eq]
    · left
      simp [Rt.argon_eq]
  · by_cases hptr : (Rt.is_ptr a && Rt.is_ptr b) = true
    · obtain ⟨hpa, hpb⟩ := Bool.and_eq_true_iff.mp hptr
      obtain ⟨oa, hoa⟩ := Option.isSome_iff_exists.mp (ha hpa)
      obtain ⟨ob, hob⟩ := Option.isSome_iff_exists.mp (hb hpb)
      cases oa with
      | Str sa =>
        cases ob with
        | Str sb =>
          by_cases hs : sa = sb
          · subst hs
            have heq : Rt.argon_eq mem a b = some (Rt.from_int 1) := by
              simp [Rt.argon_eq, hab, hpa, hpb, hoa, hob]
            rw [heq]
            exact ⟨by simp [hoa, hob], Or.inl rfl⟩
          · have heq : Rt.argon_eq mem a b = some (Rt.from_int 0) := by
              simp [Rt.argon_eq, hab, hpa, hpb, hoa, hob, hs]
            rw [heq]
            refine ⟨⟨fun h => absurd (Option.some_inj.mp h) (by decide), ?_⟩, Or.inr rfl⟩
            rintro (h | ⟨sa2, sb2, ha2, hb2, hs2⟩)
            · exact absurd h hab
            · rw [hoa] at ha2
              rw [hob] at hb2
              cases Option.some_inj.mp ha2
              cases Option.some_inj.mp hb2
              exact absurd hs2 hs
        | Arr xs =>
          have heq : Rt.argon_eq mem a b = some (Rt.from_int 0) := by
            simp [Rt.argon_eq, hab, hpa, hpb, hoa, hob]
          rw [heq]
          refine ⟨⟨fun h => absurd (Option.some_inj.mp h) (by decide), ?_⟩, Or.inr rfl⟩
          rintro (h | ⟨sa2, sb2, ha2, hb2, hs2⟩)
          · exact absurd h hab
          · rw [hob] at hb2
            exact absurd hb2 (by simp)
      | Arr xs =>
        have heq : Rt.argon_eq mem a b = some (Rt.from_int 0) := by
          cases ob <;> simp [Rt.argon_eq, hab, hpa, hpb, hoa, hob]
        rw [heq]
        refine ⟨⟨fun h => absurd (Option.some_inj.mp h) (by decide), ?_⟩, Or.inr rfl⟩
        rintro (h | ⟨sa2, sb2, ha2, hb2, hs2⟩)
        · exact absurd h hab
        · rw [hoa] at ha2
          exact absurd ha2 (by simp)
    · have heq : Rt.argon_eq mem a b = some (Rt.from_int 0) := by
        simp only [Rt.argon_eq, if_neg hab, hptr]
        simp
      rw [heq]
      refine ⟨⟨fun h => absurd (Option.some_inj.mp h) (by decide), ?_⟩, Or.inr rfl⟩
      rintro (h | ⟨sa2, sb2, ha2, hb2, hs2⟩)
      · exact absurd h hab
      · have hqa := hwf a _ ha2
        have hqb := hwf b _ hb2
        simp [hqa, hqb] at hptr

/-- Witness for C8: two distinct String objects with equal contents
compare equal (through the theorem), and two distinct Array objects with
equal contents compare unequal. -/
theorem argon_eq_semantics_witness :
    Rt.argon_eq [(16, .Str "ab"), (32, .Str "ab")] 16 32 = some (Rt.from_int 1) ∧
    Rt.argon_eq [(48, .Arr [1]), (64, .Arr [1])] 48 64 = some (Rt.from_int 0) := by
  constructor
  · have hwf : ∀ p o, Rt.lookupMem [(16, .Str "ab"), (32, .Str "ab")] p = some o →
        Rt.is_ptr p = true := by
      intro p o h
      rw [Rt.lookupMem] at h
      by_cases h1 : (16 : Int) = p
      · subst h1
        decide
      · rw [if_neg h1, Rt.lookupMem] at h
        by_cases h2 : (32 : Int) = p
        · subst h2
          decide
        · rw [if_neg h2, Rt.lookupMem] at h
          simp at h
    exact (argon_eq_semantics _ 16 32 hwf (fun _ => by decide) (fun _ => by decide)).1.mpr
      (Or.inr ⟨"ab", "ab", by decide, by decide, rfl⟩)
  · decide

/-! ## C9 — set_var targets the innermost binding scope -/

/-- `setVarFrames` misses when no frame binds the name. -/
theorem setVarFrames_none (n : String) (v : Interp.Value) :
    ∀ l : List Interp.ScopeFrame,
      (∀ g ∈ l, Interp.containsEnv g.vars n = false) →
      Interp.setVarFrames l n v = none := by
  intro l
  induction l with
  | nil => intro _; rfl
  | cons f rest ih =>
    intro h
    rw [Interp.setVarFrames, ih (fun g hg => h g (List.mem_cons_of_mem f hg))]
    rw [h f (List.mem_cons_self f rest)]
    simp

/-- `setVarFrames` rewrites the innermost (last) frame binding the
name. -/
theorem setVarFrames_found (n : String) (v : Interp.Value) :
    ∀ (pre post : List Interp.ScopeFrame) (f : Interp.ScopeFrame),
      Interp.containsEnv f.vars n = true →
      (∀ g ∈ post, Interp.containsEnv g.vars n = false) →
      Interp.setVarFrames (pre ++ f :: post) n v =
        some (pre ++ { f with vars := Interp.insertEnv f.vars n v } :: post) := by
  intro pre post f hf hpost
  induction pre with
  | nil =>
    rw [List.nil_append, Interp.setVarFrames, setVarFrames_none n v post hpost, hf]
    simp
  | cons g pre ih =>
    rw [List.cons_append, Interp.setVarFrames, ih]
    simp

/-- C9: `set_var` assigns to the innermost scope frame already binding
the name; when no scope frame and no global binds it, the binding is
created in the current (innermost) scope. -/
theorem set_var_innermost_scope :
    (∀ (st : Interp.Interpreter) (n : String) (v : Interp.Value)
        (pre post : List Interp.ScopeFrame) (f : Interp.ScopeFrame),
      st.stack = pre ++ f :: post →
      Interp.containsEnv f.vars n = true →
      (∀ g ∈ post, Interp.containsEnv g.vars n = false) →
      Interp.set_var st n v =
        { st with stack := pre ++ { f with vars := Interp.insertEnv f.vars n v } :: post }) ∧
    (∀ (st : Interp.Interpreter) (n : String) (v : Interp.Value)
        (pre : List Interp.ScopeFrame) (f : Interp.ScopeFrame),
      st.stack = pre ++ [f] →
      (∀ g ∈ st.stack, Interp.containsEnv g.vars n = false) →
      Interp.containsEnv st.globals n = false →
      Interp.set_var st n v =
        { st with stack := pre ++ [{ f with vars := Interp.insertEnv f.vars n v }] }) := by
  constructor
  · intro st n v pre post f hstack hf hpost
    rw [Interp.set_var, hstack, setVarFrames_found n v pre post f hf hpost]
  · intro st n v pre f hstack hall hglob
    rw [Interp.set_var, hstack, setVarFrames_none n v (pre ++ [f]) (by rw [← hstack]; exact hall)]
    rw [hglob]
    simp only [Bool.false_eq_true, if_false, getLast?_append_single, dropLast_append_single]

/-- Witness for C9: assignment updates the inner scope that binds `x`
(leaving the outer binding alone), and an unbound name lands in the
innermost scope. -/
theorem set_var_innermost_scope_witness :
    Interp.set_var
      ⟨[], [], [⟨[("x", .Int 1)], []⟩, ⟨[("x", .Int 2)], []⟩], []⟩ "x" (.Int 9) =
      ⟨[], [], [⟨[("x", .Int 1)], []⟩, ⟨[("x", .Int 9)], []⟩], []⟩ ∧
    Interp.set_var
      ⟨[], [], [⟨[("x", .Int 1)], []⟩, ⟨[], []⟩], []⟩ "y" (.Int 9) =
      ⟨[], [], [⟨[("x", .Int 1)], []⟩, ⟨[("y", .Int 9)], []⟩], []⟩ := by
  constructor
  · exact set_var_innermost_scope.1
      ⟨[], [], [⟨[("x", .Int 1)], []⟩, ⟨[("x", .Int 2)], []⟩], []⟩ "x" (.Int 9)
      [⟨[("x", .Int 1)], []⟩] [] ⟨[("x", .Int 2)], []⟩ rfl rfl (by simp)
  · exact set_var_innermost_scope.2
      ⟨[], [], [⟨[("x", .Int 1)], []⟩, ⟨[], []⟩], []⟩ "y" (.Int 9)
      [⟨[("x", .Int 1)], []⟩] ⟨[], []⟩ rfl
      (by
        intro g hg
        rcases List.mem_cons.mp hg with rfl | hg2
        · rfl
        · rcases List.mem_cons.mp hg2 with rfl | hg3
          · rfl
          · exact absurd hg3 (by simp))
      rfl

/-! ## C5 — defer order (corrected: a body Return beats a deferred Return) -/

/-- C5 counterexample: in `fn h() { defer return 2; return 1; }` the
claim says the deferred Return's value 2 supersedes the body's result,
but the interpreter returns the body's value 1. -/
theorem defer_return_supersede_counterexample :
    Interp.call_function 99 (Interp.Interpreter.new [("h", defer_return_fn)]) "h" [] =
      some (Interp.Interpreter.new [("h", defer_return_fn)], .ok (.Int 1)) ∧
    ¬(Interp.Value.Int 1 = Interp.Value.Int 2) := by
  refine ⟨rfl, ?_⟩
  simp

/-- C5 (amended): deferred statements run in reverse insertion order
after the body, so scenario 3 prints `3`, `2`, `1`; a deferred Return
becomes the function's result only when the body finished without its
own Return — a body Return takes precedence over any deferred Return. -/
theorem defer_order_and_deferred_return :
    (Interp.call_function 99 (Interp.Interpreter.new [("f", defer_order_fn)]) "f" [] =
      some ({ Interp.Interpreter.new [("f", defer_order_fn)] with
                output := ["3", "2", "1"] }, .ok .Null)) ∧
    (Interp.call_function 99 (Interp.Interpreter.new [("g", defer_return_only_fn)]) "g" [] =
      some (Interp.Interpreter.new [("g", defer_return_only_fn)], .ok (.Int 2))) ∧
    (Interp.call_function 99 (Interp.Interpreter.new [("h", defer_return_fn)]) "h" [] =
      some (Interp.Interpreter.new [("h", defer_return_fn)], .ok (.Int 1))) :=
  ⟨rfl, rfl, rfl⟩

/-! ## C3 — fibonacci on the bytecode VM

The brute-force state space is too large to evaluate inside the kernel
for `fib 15`, so the compiled code is verified once and for all: running
`compile_fib` on argument `n` computes `fibSpec n`.  The claim's four
instances follow. -/

theorem run_cont {vm vm' : Vm.BytecodeVM} (h : Vm.step vm = some (.cont vm'))
    (fuel : Nat) : Vm.run (fuel + 1) vm = Vm.run fuel vm' := by
  rw [Vm.run, h]

theorem run_done {vm : Vm.BytecodeVM} {v : Vm.VMValue}
    (h : Vm.step vm = some (.done v)) (fuel : Nat) :
    Vm.run (fuel + 1) vm = some v := by
  rw [Vm.run, h]

theorem wrap64_eq_self {x : Int} (h1 : -(2 ^ 63) ≤ x) (h2 : x < 2 ^ 63) :
    wrap64 x = x := by
  unfold wrap64
  omega

/-- Fetch-and-advance: stepping the fib machine at instruction `ip`
dispatches that opcode with the ip already incremented. -/
theorem fib_step_fetch (stk : List Vm.VMValue) (F : List Vm.CallFrame)
    (ip bp : Nat) (op : Vm.OpCode) (hip : ip < 16)
    (hop : Vm.compile_fib.code[ip]? = some op) :
    Vm.step (Vm.fibSt stk (F ++ [⟨0, ip, bp⟩])) =
      Vm.execOp op (Vm.fibSt stk (F ++ [⟨0, ip + 1, bp⟩])) ⟨0, ip + 1, bp⟩ F := by
  have hlen : ip < Vm.compile_fib.code.length := hip
  obtain ⟨hlen2, hget⟩ := List.getElem?_eq_some_iff.mp hop
  simp only [Vm.step, Vm.fibSt, getLast?_append_single, dropLast_append_single,
    List.getElem?_cons_zero]
  rw [dif_pos hlen]
  rw [hget]

/-- `LoadLocal 0` pushes the base-pointer slot. -/
theorem fib_step_load0 (S rest2 : List Vm.VMValue) (F : List Vm.CallFrame)
    (n : Int) (ip : Nat) (hip : ip < 16)
    (hop : Vm.compile_fib.code[ip]? = some (.LoadLocal 0)) :
    Vm.step (Vm.fibSt (S ++ .Int n :: rest2) (F ++ [⟨0, ip, S.length⟩])) =
      some (.cont (Vm.fibSt ((S ++ .Int n :: rest2) ++ [.Int n])
        (F ++ [⟨0, ip + 1, S.length⟩]))) := by
  rw [fib_step_fetch _ _ _ _ _ hip hop, Vm.execOp]
  have hidx : (S ++ .Int n :: rest2)[S.length + 0]? = some (.Int n) := by
    rw [getElem?_append_len]
    simp
  simp only [Vm.fibSt] at hidx ⊢
  rw [hidx]

/-- `Const c` pushes the constant. -/
theorem fib_step_const (stk : List Vm.VMValue) (F : List Vm.CallFrame)
    (c : Int) (ip bp : Nat) (hip : ip < 16)
    (hop : Vm.compile_fib.code[ip]? = some (.Const c)) :
    Vm.step (Vm.fibSt stk (F ++ [⟨0, ip, bp⟩])) =
      some (.cont (Vm.fibSt (stk ++ [.Int c]) (F ++ [⟨0, ip + 1, bp⟩]))) := by
  rw [fib_step_fetch _ _ _ _ _ hip hop, Vm.execOp]
  simp [Vm.fibSt]

/-- `Lt` pops two and pushes the comparison. -/
theorem fib_step_lt (stk : List Vm.VMValue) (F : List Vm.CallFrame)
    (a b : Vm.VMValue) (ip bp : Nat) (hip : ip < 16)
    (hop : Vm.compile_fib.code[ip]? = some .Lt) :
    Vm.step (Vm.fibSt (stk ++ [a, b]) (F ++ [⟨0, ip, bp⟩])) =
      some (.cont (Vm.fibSt (stk ++ [.Bool (decide (Vm.as_int a < Vm.as_int b))])
        (F ++ [⟨0, ip + 1, bp⟩]))) := by
  rw [fib_step_fetch _ _ _ _ _ hip hop, Vm.execOp]
  have h2 : stk ++ [a, b] = (stk ++ [a]) ++ [b] := by simp
  simp only [Vm.fibSt, h2, popVal_append]

/-- `Sub` pops two and pushes the (wrapped) difference. -/
theorem fib_step_sub (stk : List Vm.VMValue) (F : List Vm.CallFrame)
    (a b : Vm.VMValue) (ip bp : Nat) (hip : ip < 16)
    (hop : Vm.compile_fib.code[ip]? = some .Sub) :
    Vm.step (Vm.fibSt (stk ++ [a, b]) (F ++ [⟨0, ip, bp⟩])) =
      some (.cont (Vm.fibSt (stk ++ [.Int (wrap64 (Vm.as_int a - Vm.as_int b))])
        (F ++ [⟨0, ip + 1, bp⟩]))) := by
  rw [fib_step_fetch _ _ _ _ _ hip hop, Vm.execOp]
  have h2 : stk ++ [a, b] = (stk ++ [a]) ++ [b] := by simp
  simp only [Vm.fibSt, h2, popVal_append]

/-- `Add` pops two and pushes the (wrapped) sum. -/
theorem fib_step_add (stk : List Vm.VMValue) (F : List Vm.CallFrame)
    (a b : Vm.VMValue) (ip bp : Nat) (hip : ip < 16)
    (hop : Vm.compile_fib.code[ip]? = some .Add) :
    Vm.step (Vm.fibSt (stk ++ [a, b]) (F ++ [⟨0, ip, bp⟩])) =
      some (.cont (Vm.fibSt (stk ++ [.Int (wrap64 (Vm.as_int a + Vm.as_int b))])
        (F ++ [⟨0, ip + 1, bp⟩]))) := by
  rw [fib_step_fetch _ _ _ _ _ hip hop, Vm.execOp]
  have h2 : stk ++ [a, b] = (stk ++ [a]) ++ [b] := by simp
  simp only [Vm.fibSt, h2, popVal_append]

/-- `JumpIfFalse` pops the condition and jumps exactly when falsy. -/
theorem fib_step_jumpIfFalse (stk : List Vm.VMValue) (F : List Vm.CallFrame)
    (c : Vm.VMValue) (t ip bp : Nat) (hip : ip < 16)
    (hop : Vm.compile_fib.code[ip]? = some (.JumpIfFalse t)) :
    Vm.step (Vm.fibSt (stk ++ [c]) (F ++ [⟨0, ip, bp⟩])) =
      some (.cont (Vm.fibSt stk
        (F ++ [⟨0, if Vm.is_truthy c then ip + 1 else t, bp⟩]))) := by
  rw [fib_step_fetch _ _ _ _ _ hip hop, Vm.execOp]
  simp only [Vm.fibSt, popVal_append]
  cases h : Vm.is_truthy c <;> simp

/-- `Call 0 1`: one argument becomes the callee's single local; the new
frame's base pointer sits under it. -/
theorem fib_step_call (stk : List Vm.VMValue) (F : List Vm.CallFrame)
    (v : Vm.VMValue) (ip bp : Nat) (hip : ip < 16)
    (hop : Vm.compile_fib.code[ip]? = some (.Call 0 1)) :
    Vm.step (Vm.fibSt (stk ++ [v]) (F ++ [⟨0, ip, bp⟩])) =
      some (.cont (Vm.fibSt (stk ++ [v])
        ((F ++ [⟨0, ip + 1, bp⟩]) ++ [⟨0, 0, stk.length⟩]))) := by
  rw [fib_step_fetch _ _ _ _ _ hip hop, Vm.execOp]
  simp only [Vm.fibSt, List.getElem?_cons_zero, List.length_append, List.length_cons,
    List.length_nil]
  rw [if_pos (by omega)]
  simp only [Vm.compile_fib, Nat.sub_self, List.replicate, List.append_nil, Nat.zero_add,
    Nat.add_zero, Nat.add_sub_cancel]

/-- `Return` pops the result, pops the frame, truncates to the base
pointer and pushes the result — or finishes if no frame remains. -/
theorem fib_step_return (stk : List Vm.VMValue) (F : List Vm.CallFrame)
    (ip bp : Nat) (hip : ip < 16)
    (hop : Vm.compile_fib.code[ip]? = some .Return) :
    Vm.step (Vm.fibSt stk (F ++ [⟨0, ip, bp⟩])) =
      some (if F.isEmpty then .done (Vm.popVal stk).1
            else .cont (Vm.fibSt (((Vm.popVal stk).2).take bp ++ [(Vm.popVal stk).1]) F)) := by
  rw [fib_step_fetch _ _ _ _ _ hip hop, Vm.execOp]
  cases F with
  | nil => simp [Vm.fibSt]
  | cons f0 ftail => simp [Vm.fibSt]

/-- Congruence helper to renormalise the stack/frames expressions of a
fib machine state. -/
theorem run_congr {a b : List Vm.VMValue} {fa fb : List Vm.CallFrame}
    (hs : a = b) (hf : fa = fb) (fuel : Nat) :
    Vm.run fuel (Vm.fibSt a fa) = Vm.run fuel (Vm.fibSt b fb) := by
  rw [hs, hf]

set_option maxHeartbeats 1600000 in
/-- Running `compile_fib` on an argument below 2 takes the `n < 2` branch
and returns the argument itself after 6 steps. -/
theorem fib_exec_small (n : Nat) (hn2 : (n : Int) < 2) :
    ∀ (fuel : Nat) (S : List Vm.VMValue) (F : List Vm.CallFrame),
      Vm.run (fuel + 6) (Vm.fibSt (S ++ [.Int (n : Int)]) (F ++ [⟨0, 0, S.length⟩])) =
        (if F.isEmpty then some (.Int (n : Int))
         else Vm.run fuel (Vm.fibSt (S ++ [.Int (n : Int)]) F)) := by
  intro fuel S F
  rw [show fuel + 6 = fuel + 5 + 1 from by omega]
  rw [run_cont (fib_step_load0 S [] F (n : Int) 0 (by norm_num) rfl) (fuel + 5)]
  simp only [Nat.reduceAdd]
  rw [show fuel + 5 = fuel + 4 + 1 from by omega]
  rw [run_cont (fib_step_const ((S ++ [Vm.VMValue.Int (n : Int)]) ++ [Vm.VMValue.Int (n : Int)]) F 2 1 S.length
    (by norm_num) rfl) (fuel + 4)]
  simp only [Nat.reduceAdd]
  rw [show ((S ++ [Vm.VMValue.Int (n : Int)]) ++ [Vm.VMValue.Int (n : Int)]) ++
      [Vm.VMValue.Int 2] =
      (S ++ [Vm.VMValue.Int (n : Int)]) ++ [Vm.VMValue.Int (n : Int), Vm.VMValue.Int 2]
    from by simp]
  rw [show fuel + 4 = fuel + 3 + 1 from by omega]
  rw [run_cont (fib_step_lt (S ++ [Vm.VMValue.Int (n : Int)]) F (Vm.VMValue.Int (n : Int)) (Vm.VMValue.Int 2) 2 S.length
    (by norm_num) rfl) (fuel + 3)]
  rw [show decide (Vm.as_int (Vm.VMValue.Int (n : Int)) < Vm.as_int (Vm.VMValue.Int 2)) = true
    from by simp [Vm.as_int]; exact_mod_cast hn2]
  rw [show fuel + 3 = fuel + 2 + 1 from by omega]
  rw [run_cont (fib_step_jumpIfFalse (S ++ [Vm.VMValue.Int (n : Int)]) F (Vm.VMValue.Bool true) 6 3 S.length
    (by norm_num) rfl) (fuel + 2)]
  norm_num [Vm.is_truthy]
  rw [show fuel + 2 = fuel + 1 + 1 from by omega]
  rw [run_cont (fib_step_load0 S [] F (n : Int) 4 (by norm_num) rfl) (fuel + 1)]
  simp only [Nat.reduceAdd]
  have hstep := fib_step_return ((S ++ [Vm.VMValue.Int (n : Int)]) ++ [Vm.VMValue.Int (n : Int)]) F 5 S.length
    (by norm_num) rfl
  rw [popVal_append] at hstep
  cases F with
  | nil =>
    simp only [List.isEmpty_nil, if_true] at hstep ⊢
    rw [run_done hstep fuel]
  | cons f0 ftail =>
    simp only [List.isEmpty_cons, if_false, Bool.false_eq_true] at hstep ⊢
    rw [take_append_len] at hstep
    rw [run_cont hstep fuel]
    simp

set_option maxHeartbeats 1600000 in
/-- Running `compile_fib` on any 62-bit argument `n` computes
`fibSpec n`: with any caller stack `S` and frame stack `F` below, enough
fuel finishes the call and leaves exactly the result on the caller's
stack (or returns it to the host when `F` is empty). -/
theorem fib_exec : ∀ n : Nat, n < 2 ^ 62 →
    ∃ c : Nat, ∀ (fuel : Nat) (S : List Vm.VMValue) (F : List Vm.CallFrame),
      Vm.run (fuel + c) (Vm.fibSt (S ++ [.Int (n : Int)]) (F ++ [⟨0, 0, S.length⟩])) =
        (if F.isEmpty then some (.Int (Vm.fibSpec n))
         else Vm.run fuel (Vm.fibSt (S ++ [.Int (Vm.fibSpec n)]) F)) := by
  intro n
  induction n using Nat.strong_induction_on with
  | _ n ih =>
    intro hn
    by_cases hz : n = 0
    · subst hz
      refine ⟨6, fun fuel S F => ?_⟩
      have h := fib_exec_small 0 (by norm_num) fuel S F
      rw [show Vm.fibSpec 0 = ((0 : Nat) : Int) from by simp [Vm.fibSpec]]
      exact h
    by_cases ho : n = 1
    · subst ho
      refine ⟨6, fun fuel S F => ?_⟩
      have h := fib_exec_small 1 (by norm_num) fuel S F
      rw [show Vm.fibSpec 1 = ((1 : Nat) : Int) from by simp [Vm.fibSpec]]
      exact h
    obtain ⟨m, rfl⟩ : ∃ m, n = m + 2 := ⟨n - 2, by omega⟩
    obtain ⟨c1, ih1⟩ := ih (m + 1) (by omega) (by omega)
    obtain ⟨c2, ih2⟩ := ih m (by omega) (by omega)
    refine ⟨c1 + c2 + 14, fun fuel S F => ?_⟩
    have hsub1 : wrap64 (Vm.as_int (Vm.VMValue.Int ((m + 2 : Nat) : Int)) -
        Vm.as_int (Vm.VMValue.Int 1)) = ((m + 1 : Nat) : Int) := by
      simp only [Vm.as_int]
      rw [wrap64_eq_self (by push_cast; omega) (by push_cast; omega)]
      push_cast
      ring
    have hsub2 : wrap64 (Vm.as_int (Vm.VMValue.Int ((m + 2 : Nat) : Int)) -
        Vm.as_int (Vm.VMValue.Int 2)) = ((m : Nat) : Int) := by
      simp only [Vm.as_int]
      rw [wrap64_eq_self (by push_cast; omega) (by push_cast; omega)]
      push_cast
      ring
    rw [show fuel + (c1 + c2 + 14) = fuel + (c1 + c2 + 13) + 1 from by omega]
    rw [run_cont (fib_step_load0 S [] F ((m + 2 : Nat) : Int) 0 (by norm_num) rfl)
      (fuel + (c1 + c2 + 13))]
    simp only [Nat.reduceAdd]
    rw [show fuel + (c1 + c2 + 13) = fuel + (c1 + c2 + 12) + 1 from by omega]
    rw [run_cont (fib_step_const ((S ++ [Vm.VMValue.Int ((m + 2 : Nat) : Int)]) ++
      [Vm.VMValue.Int ((m + 2 : Nat) : Int)]) F 2 1 S.length (by norm_num) rfl)
      (fuel + (c1 + c2 + 12))]
    simp only [Nat.reduceAdd]
    rw [show ((S ++ [Vm.VMValue.Int ((m + 2 : Nat) : Int)]) ++
        [Vm.VMValue.Int ((m + 2 : Nat) : Int)]) ++ [Vm.VMValue.Int 2] =
      (S ++ [Vm.VMValue.Int ((m + 2 : Nat) : Int)]) ++
        [Vm.VMValue.Int ((m + 2 : Nat) : Int), Vm.VMValue.Int 2] from by simp]
    rw [show fuel + (c1 + c2 + 12) = fuel + (c1 + c2 + 11) + 1 from by omega]
    rw [run_cont (fib_step_lt (S ++ [Vm.VMValue.Int ((m + 2 : Nat) : Int)]) F
      (Vm.VMValue.Int ((m + 2 : Nat) : Int)) (Vm.VMValue.Int 2) 2 S.length
      (by norm_num) rfl) (fuel + (c1 + c2 + 11))]
    rw [show decide (Vm.as_int (Vm.VMValue.Int ((m + 2 : Nat) : Int)) <
        Vm.as_int (Vm.VMValue.Int 2)) = false from by
      simp only [Vm.as_int, decide_eq_false_iff_not, not_lt]
      push_cast
      omega]
    rw [show fuel + (c1 + c2 + 11) = fuel + (c1 + c2 + 10) + 1 from by omega]
    rw [run_cont (fib_step_jumpIfFalse (S ++ [Vm.VMValue.Int ((m + 2 : Nat) : Int)]) F
      (Vm.VMValue.Bool false) 6 3 S.length (by norm_num) rfl) (fuel + (c1 + c2 + 10))]
    simp only [Vm.is_truthy, Bool.false_eq_true, if_false]
    rw [show fuel + (c1 + c2 + 10) = fuel + (c1 + c2 + 9) + 1 from by omega]
    rw [run_cont (fib_step_load0 S [] F ((m + 2 : Nat) : Int) 6 (by norm_num) rfl)
      (fuel + (c1 + c2 + 9))]
    simp only [Nat.reduceAdd]
    rw [show fuel + (c1 + c2 + 9) = fuel + (c1 + c2 + 8) + 1 from by omega]
    rw [run_cont (fib_step_const ((S ++ [Vm.VMValue.Int ((m + 2 : Nat) : Int)]) ++
      [Vm.VMValue.Int ((m + 2 : Nat) : Int)]) F 1 7 S.length (by norm_num) rfl)
      (fuel + (c1 + c2 + 8))]
    simp only [Nat.reduceAdd]
    rw [show ((S ++ [Vm.VMValue.Int ((m + 2 : Nat) : Int)]) ++
        [Vm.VMValue.Int ((m + 2 : Nat) : Int)]) ++ [Vm.VMValue.Int 1] =
      (S ++ [Vm.VMValue.Int ((m + 2 : Nat) : Int)]) ++
        [Vm.VMValue.Int ((m + 2 : Nat) : Int), Vm.VMValue.Int 1] from by simp]
    rw [show fuel + (c1 + c2 + 8) = fuel + (c1 + c2 + 7) + 1 from by omega]
    rw [run_cont (fib_step_sub (S ++ [Vm.VMValue.Int ((m + 2 : Nat) : Int)]) F
      (Vm.VMValue.Int ((m + 2 : Nat) : Int)) (Vm.VMValue.Int 1) 8 S.length
      (by norm_num) rfl) (fuel + (c1 + c2 + 7))]
    rw [hsub1]
    rw [show fuel + (c1 + c2 + 7) = fuel + (c1 + c2 + 6) + 1 from by omega]
    rw [run_cont (fib_step_call (S ++ [Vm.VMValue.Int ((m + 2 : Nat) : Int)]) F
      (Vm.VMValue.Int ((m + 1 : Nat) : Int)) 9 S.length (by norm_num) rfl)
      (fuel + (c1 + c2 + 6))]
    simp only [Nat.reduceAdd]
    rw [show fuel + (c1 + c2 + 6) = (fuel + (c2 + 6)) + c1 from by omega]
    have h1 := ih1 (fuel + (c2 + 6)) (S ++ [Vm.VMValue.Int ((m + 2 : Nat) : Int)])
      (F ++ [⟨0, 10, S.length⟩])
    rw [if_neg (by simp)] at h1
    rw [h1]
    rw [show (S ++ [Vm.VMValue.Int ((m + 2 : Nat) : Int)]) ++
        [Vm.VMValue.Int (Vm.fibSpec (m + 1))] =
      S ++ [Vm.VMValue.Int ((m + 2 : Nat) : Int), Vm.VMValue.Int (Vm.fibSpec (m + 1))]
      from by simp]
    rw [show fuel + (c2 + 6) = fuel + (c2 + 5) + 1 from by omega]
    rw [run_cont (fib_step_load0 S [Vm.VMValue.Int (Vm.fibSpec (m + 1))] F
      ((m + 2 : Nat) : Int) 10 (by norm_num) rfl) (fuel + (c2 + 5))]
    simp only [Nat.reduceAdd]
    rw [show fuel + (c2 + 5) = fuel + (c2 + 4) + 1 from by omega]
    rw [run_cont (fib_step_const ((S ++ [Vm.VMValue.Int ((m + 2 : Nat) : Int),
      Vm.VMValue.Int (Vm.fibSpec (m + 1))]) ++ [Vm.VMValue.Int ((m + 2 : Nat) : Int)]) F
      2 11 S.length (by norm_num) rfl) (fuel + (c2 + 4))]
    simp only [Nat.reduceAdd]
    rw [show ((S ++ [Vm.VMValue.Int ((m + 2 : Nat) : Int),
        Vm.VMValue.Int (Vm.fibSpec (m + 1))]) ++
        [Vm.VMValue.Int ((m + 2 : Nat) : Int)]) ++ [Vm.VMValue.Int 2] =
      (S ++ [Vm.VMValue.Int ((m + 2 : Nat) : Int), Vm.VMValue.Int (Vm.fibSpec (m + 1))]) ++
        [Vm.VMValue.Int ((m + 2 : Nat) : Int), Vm.VMValue.Int 2] from by simp]
    rw [show fuel + (c2 + 4) = fuel + (c2 + 3) + 1 from by omega]
    rw [run_cont (fib_step_sub (S ++ [Vm.VMValue.Int ((m + 2 : Nat) : Int),
      Vm.VMValue.Int (Vm.fibSpec (m + 1))]) F (Vm.VMValue.Int ((m + 2 : Nat) : Int))
      (Vm.VMValue.Int 2) 12 S.length (by norm_num) rfl) (fuel + (c2 + 3))]
    rw [hsub2]
    rw [show fuel + (c2 + 3) = fuel + (c2 + 2) + 1 from by omega]
    rw [run_cont (fib_step_call (S ++ [Vm.VMValue.Int ((m + 2 : Nat) : Int),
      Vm.VMValue.Int (Vm.fibSpec (m + 1))]) F (Vm.VMValue.Int ((m : Nat) : Int)) 13
      S.length (by norm_num) rfl) (fuel + (c2 + 2))]
    simp only [Nat.reduceAdd]
    rw [show fuel + (c2 + 2) = (fuel + 2) + c2 from by omega]
    have h2 := ih2 (fuel + 2) (S ++ [Vm.VMValue.Int ((m + 2 : Nat) : Int),
      Vm.VMValue.Int (Vm.fibSpec (m + 1))]) (F ++ [⟨0, 14, S.length⟩])
    rw [if_neg (by simp)] at h2
    rw [h2]
    rw [show (S ++ [Vm.VMValue.Int ((m + 2 : Nat) : Int),
        Vm.VMValue.Int (Vm.fibSpec (m + 1))]) ++ [Vm.VMValue.Int (Vm.fibSpec m)] =
      (S ++ [Vm.VMValue.Int ((m + 2 : Nat) : Int)]) ++
        [Vm.VMValue.Int (Vm.fibSpec (m + 1)), Vm.VMValue.Int (Vm.fibSpec m)] from by simp]
    rw [show fuel + 2 = fuel + 1 + 1 from by omega]
    rw [run_cont (fib_step_add (S ++ [Vm.VMValue.Int ((m + 2 : Nat) : Int)]) F
      (Vm.VMValue.Int (Vm.fibSpec (m + 1))) (Vm.VMValue.Int (Vm.fibSpec m)) 14 S.length
      (by norm_num) rfl) (fuel + 1)]
    rw [show wrap64 (Vm.as_int (Vm.VMValue.Int (Vm.fibSpec (m + 1))) +
        Vm.as_int (Vm.VMValue.Int (Vm.fibSpec m))) = Vm.fibSpec (m + 2) from by
      simp [Vm.as_int, Vm.fibSpec]]
    simp only [Nat.reduceAdd]
    have hstep := fib_step_return ((S ++ [Vm.VMValue.Int ((m + 2 : Nat) : Int)]) ++
      [Vm.VMValue.Int (Vm.fibSpec (m + 2))]) F 15 S.length (by norm_num) rfl
    rw [popVal_append] at hstep
    cases F with
    | nil =>
      simp only [List.isEmpty_nil, if_true] at hstep ⊢
      rw [run_done hstep fuel]
    | cons f0 ftail =>
      simp only [List.isEmpty_cons, if_false, Bool.false_eq_true] at hstep ⊢
      rw [take_append_len] at hstep
      rw [run_cont hstep fuel]

set_option maxHeartbeats 1600000 in
/-- C3: on a fresh VM holding `compile_fib`, `call "fib" [Int n]`
terminates and returns Int 55 for n = 10, Int 0 for n = 0, Int 1 for
n = 1 and Int 610 for n = 15 (`call` is modelled with fuel; the
existential says the run finishes with that result). -/
theorem vm_fib_results :
    (∃ fuel, Vm.call fuel (Vm.add_function Vm.BytecodeVM.new Vm.compile_fib) "fib"
      [.Int 10] = some (.Int 55)) ∧
    (∃ fuel, Vm.call fuel (Vm.add_function Vm.BytecodeVM.new Vm.compile_fib) "fib"
      [.Int 0] = some (.Int 0)) ∧
    (∃ fuel, Vm.call fuel (Vm.add_function Vm.BytecodeVM.new Vm.compile_fib) "fib"
      [.Int 1] = some (.Int 1)) ∧
    (∃ fuel, Vm.call fuel (Vm.add_function Vm.BytecodeVM.new Vm.compile_fib) "fib"
      [.Int 15] = some (.Int 610)) := by
  obtain ⟨c10, h10⟩ := fib_exec 10 (by norm_num)
  obtain ⟨c0, h0⟩ := fib_exec 0 (by norm_num)
  obtain ⟨c1, h1⟩ := fib_exec 1 (by norm_num)
  obtain ⟨c15, h15⟩ := fib_exec 15 (by norm_num)
  exact ⟨⟨0 + c10, h10 0 [] []⟩, ⟨0 + c0, h0 0 [] []⟩,
         ⟨0 + c1, h1 0 [] []⟩, ⟨0 + c15, h15 0 [] []⟩⟩

/-! ## C1 — mark-and-sweep reachability -/

theorem reachFrom_mono {heap : Gc.Heap} {s s' : List Nat} {x : Nat}
    (hsub : ∀ y ∈ s, y ∈ s') (h : Gc.ReachFrom heap s x) : Gc.ReachFrom heap s' x := by
  induction h with
  | root hr => exact .root (hsub _ hr)
  | child _ hl hc ih => exact .child ih hl hc

theorem reachFrom_bind {heap : Gc.Heap} {s s' : List Nat} {x : Nat}
    (hall : ∀ y ∈ s', Gc.ReachFrom heap s y) (h : Gc.ReachFrom heap s' x) :
    Gc.ReachFrom heap s x := by
  induction h with
  | root hr => exact hall _ hr
  | child _ hl hc ih => exact .child ih hl hc

theorem markGo_subset (heap : Gc.Heap) :
    ∀ (s m : List Nat), ∀ x ∈ m, x ∈ Gc.markGo heap s m := by
  intro s m
  induction s, m using Gc.markGo.induct heap with
  | case1 m => intro x hx; simpa [Gc.markGo] using hx
  | case2 id rest m hmem ih =>
    intro x hx
    rw [Gc.markGo, if_pos hmem]
    exact ih x hx
  | case3 id rest m hmem hl ih =>
    intro x hx
    rw [Gc.markGo, if_neg hmem, hl]
    exact ih x hx
  | case4 id rest m hmem o hl ih =>
    intro x hx
    rw [Gc.markGo, if_neg hmem, hl]
    exact ih x (List.mem_cons_of_mem id hx)

theorem markGo_sound (heap : Gc.Heap) :
    ∀ (s m : List Nat), ∀ x ∈ Gc.markGo heap s m,
      x ∈ m ∨ (Gc.ReachFrom heap s x ∧ ∃ o, Gc.lookupObj heap x = some o) := by
  intro s m
  induction s, m using Gc.markGo.induct heap with
  | case1 m =>
    intro x hx
    rw [Gc.markGo] at hx
    exact Or.inl hx
  | case2 id rest m hmem ih =>
    intro x hx
    rw [Gc.markGo, if_pos hmem] at hx
    rcases ih x hx with h | ⟨hr, ho⟩
    · exact Or.inl h
    · exact Or.inr ⟨reachFrom_mono (fun y hy => List.mem_cons_of_mem id hy) hr, ho⟩
  | case3 id rest m hmem hl ih =>
    intro x hx
    rw [Gc.markGo, if_neg hmem, hl] at hx
    rcases ih x hx with h | ⟨hr, ho⟩
    · exact Or.inl h
    · exact Or.inr ⟨reachFrom_mono (fun y hy => List.mem_cons_of_mem id hy) hr, ho⟩
  | case4 id rest m hmem o hl ih =>
    intro x hx
    rw [Gc.markGo, if_neg hmem, hl] at hx
    rcases ih x hx with h | ⟨hr, ho⟩
    · rcases List.mem_cons.mp h with rfl | hxm
      · exact Or.inr ⟨.root (List.mem_cons_self x rest), ⟨o, hl⟩⟩
      · exact Or.inl hxm
    · refine Or.inr ⟨reachFrom_bind ?_ hr, ho⟩
      intro y hy
      rcases List.mem_append.mp hy with hyc | hyr
      · exact .child (.root (List.mem_cons_self id rest)) hl hyc
      · exact .root (List.mem_cons_of_mem id hyr)

theorem markGo_complete (heap : Gc.Heap) :
    ∀ (s m : List Nat),
      (∀ x ∈ m, ∀ o, Gc.lookupObj heap x = some o →
        ∀ c ∈ Gc.children o, c ∈ m ∨ c ∈ s ∨ Gc.lookupObj heap c = none) →
      (∀ x ∈ s, (∃ o, Gc.lookupObj heap x = some o) → x ∈ Gc.markGo heap s m) ∧
      (∀ x ∈ Gc.markGo heap s m, ∀ o, Gc.lookupObj heap x = some o →
        ∀ c ∈ Gc.children o, c ∈ Gc.markGo heap s m ∨ Gc.lookupObj heap c = none) := by
  intro s m
  induction s, m using Gc.markGo.induct heap with
  | case1 m =>
    intro hclosed
    constructor
    · intro x hx
      exact absurd hx (List.not_mem_nil x)
    · intro x hx o ho c hc
      rw [Gc.markGo] at hx
      rcases hclosed x hx o ho c hc with h | h | h
      · rw [Gc.markGo]
        exact Or.inl h
      · exact absurd h (List.not_mem_nil c)
      · exact Or.inr h
  | case2 id rest m hmem ih =>
    intro hclosed
    have hclosed2 : ∀ x ∈ m, ∀ o, Gc.lookupObj heap x = some o →
        ∀ c ∈ Gc.children o, c ∈ m ∨ c ∈ rest ∨ Gc.lookupObj heap c = none := by
      intro x hx o ho c hc
      rcases hclosed x hx o ho c hc with h | h | h
      · exact Or.inl h
      · rcases List.mem_cons.mp h with rfl | hcr
        · exact Or.inl hmem
        · exact Or.inr (Or.inl hcr)
      · exact Or.inr (Or.inr h)
    obtain ⟨iha, ihb⟩ := ih hclosed2
    constructor
    · intro x hx hex
      rw [Gc.markGo, if_pos hmem]
      rcases List.mem_cons.mp hx with rfl | hxr
      · exact markGo_subset heap rest m x hmem
      · exact iha x hxr hex
    · intro x hx o ho c hc
      rw [Gc.markGo, if_pos hmem] at hx ⊢
      exact ihb x hx o ho c hc
  | case3 id rest m hmem hl ih =>
    intro hclosed
    have hclosed2 : ∀ x ∈ m, ∀ o, Gc.lookupObj heap x = some o →
        ∀ c ∈ Gc.children o, c ∈ m ∨ c ∈ rest ∨ Gc.lookupObj heap c = none := by
      intro x hx o ho c hc
      rcases hclosed x hx o ho c hc with h | h | h
      · exact Or.inl h
      · rcases List.mem_cons.mp h with rfl | hcr
        · exact Or.inr (Or.inr hl)
        · exact Or.inr (Or.inl hcr)
      · exact Or.inr (Or.inr h)
    obtain ⟨iha, ihb⟩ := ih hclosed2
    constructor
    · intro x hx hex
      rw [Gc.markGo, if_neg hmem, hl]
      rcases List.mem_cons.mp hx with rfl | hxr
      · obtain ⟨o, ho⟩ := hex
        rw [ho] at hl
        cases hl
      · exact iha x hxr hex
    · intro x hx o ho c hc
      rw [Gc.markGo, if_neg hmem, hl] at hx ⊢
      exact ihb x hx o ho c hc
  | case4 id rest m hmem o hl ih =>
    intro hclosed
    have hclosed2 : ∀ x ∈ id :: m, ∀ o2, Gc.lookupObj heap x = some o2 →
        ∀ c ∈ Gc.children o2, c ∈ id :: m ∨ c ∈ Gc.children o ++ rest ∨
          Gc.lookupObj heap c = none := by
      intro x hx o2 ho2 c hc
      rcases List.mem_cons.mp hx with rfl | hxm
      · rw [hl] at ho2
        cases ho2
        exact Or.inr (Or.inl (List.mem_append.mpr (Or.inl hc)))
      · rcases hclosed x hxm o2 ho2 c hc with h | h | h
        · exact Or.inl (List.mem_cons_of_mem id h)
        · rcases List.mem_cons.mp h with rfl | hcr
          · exact Or.inl (List.mem_cons_self c m)
          · exact Or.inr (Or.inl (List.mem_append.mpr (Or.inr hcr)))
        · exact Or.inr (Or.inr h)
    obtain ⟨iha, ihb⟩ := ih hclosed2
    constructor
    · intro x hx hex
      rw [Gc.markGo, if_neg hmem, hl]
      rcases List.mem_cons.mp hx with rfl | hxr
      · exact markGo_subset heap (Gc.children o ++ rest) (x :: m) x
          (List.mem_cons_self x m)
      · exact iha x (List.mem_append.mpr (Or.inr hxr)) hex
    · intro x hx o2 ho2 c hc
      rw [Gc.markGo, if_neg hmem, hl] at hx ⊢
      exact ihb x hx o2 ho2 c hc

theorem lookup_sweep (heap : Gc.Heap) (marked : List Nat) (id : Nat) :
    Gc.lookupObj (Gc.sweep_phase heap marked) id =
      if id ∈ marked then Gc.lookupObj heap id else none := by
  induction heap with
  | nil => simp [Gc.sweep_phase, Gc.lookupObj]
  | cons p t ih =>
    rcases p with ⟨k, o⟩
    simp only [Gc.sweep_phase, List.filter_cons] at ih ⊢
    by_cases hk : k ∈ marked
    · by_cases hkid : k = id
      · subst hkid
        simp [hk, Gc.lookupObj]
      · simp [hk, Gc.lookupObj, hkid, ih]
    · by_cases hkid : k = id
      · subst hkid
        simp [hk, ih, Gc.lookupObj]
      · simp [hk, Gc.lookupObj, hkid, ih]

theorem collect_mem (gc : Gc.GarbageCollector) (id : Nat) :
    (Gc.lookupObj (Gc.collect gc).heap id).isSome ↔
      (Gc.lookupObj gc.heap id).isSome ∧ Gc.ReachFrom gc.heap gc.roots id := by
  show (Gc.lookupObj (Gc.sweep_phase gc.heap (Gc.mark_phase gc.heap gc.roots)) id).isSome ↔ _
  rw [lookup_sweep]
  simp only [Gc.mark_phase]
  constructor
  · intro h
    by_cases hm : id ∈ Gc.markGo gc.heap gc.roots []
    · rw [if_pos hm] at h
      rcases markGo_sound gc.heap gc.roots [] id hm with h2 | ⟨hr, _⟩
      · exact absurd h2 (List.not_mem_nil id)
      · exact ⟨h, hr⟩
    · rw [if_neg hm] at h
      simp at h
  · rintro ⟨hsome, hreach⟩
    obtain ⟨iha, ihb⟩ := markGo_complete gc.heap gc.roots []
      (by intro x hx; exact absurd hx (List.not_mem_nil x))
    have hmark : ∀ x, Gc.ReachFrom gc.heap gc.roots x →
        (Gc.lookupObj gc.heap x).isSome → x ∈ Gc.markGo gc.heap gc.roots [] := by
      intro x hreach2
      induction hreach2 with
      | root hr =>
        intro hs
        obtain ⟨o, ho⟩ := Option.isSome_iff_exists.mp hs
        exact iha _ hr ⟨o, ho⟩
      | child ha hlk hc ih =>
        intro hs
        obtain ⟨o2, ho2⟩ := Option.isSome_iff_exists.mp hs
        have hxa := ih (by rw [hlk]; rfl)
        rcases ihb _ hxa _ hlk _ hc with h | h
        · exact h
        · rw [ho2] at h
          cases h
    rw [if_pos (hmark id hreach hsome)]
    exact hsome

/-- C1: after any sequence of alloc / add_root / remove_root operations
followed by `collect`, an object id is present in the heap exactly when it
was present before the collection and is reachable from the root set
(transitively through Array elements and Struct field values); in
particular, allocating two arrays that reference each other in a cycle
while rooting neither leaves both present before `collect` and removes
both (the whole heap) after it. -/
theorem gc_collect_reachability :
    (∀ (ops : List Gc.Op) (id : Nat),
      (Gc.lookupObj (Gc.collect (Gc.runOps ops Gc.GarbageCollector.new)).heap id).isSome ↔
        (Gc.lookupObj (Gc.runOps ops Gc.GarbageCollector.new).heap id).isSome ∧
        Gc.ReachFrom (Gc.runOps ops Gc.GarbageCollector.new).heap
          (Gc.runOps ops Gc.GarbageCollector.new).roots id) ∧
    (Gc.lookupObj (Gc.runOps [.alloc (.Array [.Ref 2]), .alloc (.Array [.Ref 1])]
        Gc.GarbageCollector.new).heap 1 = some (.Array [.Ref 2]) ∧
      Gc.lookupObj (Gc.runOps [.alloc (.Array [.Ref 2]), .alloc (.Array [.Ref 1])]
        Gc.GarbageCollector.new).heap 2 = some (.Array [.Ref 1]) ∧
      (Gc.collect (Gc.runOps [.alloc (.Array [.Ref 2]), .alloc (.Array [.Ref 1])]
        Gc.GarbageCollector.new)).heap = []) := by
  refine ⟨fun ops id => collect_mem _ id, rfl, rfl, ?_⟩
  have hrun : Gc.runOps [.alloc (.Array [.Ref 2]), .alloc (.Array [.Ref 1])]
      Gc.GarbageCollector.new =
      { heap := [(2, Gc.GcObject.Array [Gc.GcValue.Ref 1]),
                 (1, Gc.GcObject.Array [Gc.GcValue.Ref 2])],
        next_id := 3, roots := [], threshold := 1000, allocated := 2 } := rfl
  rw [hrun]
  have hmark : Gc.markGo [(2, Gc.GcObject.Array [Gc.GcValue.Ref 1]),
      (1, Gc.GcObject.Array [Gc.GcValue.Ref 2])] [] [] = [] := by
    rw [Gc.markGo]
  simp [Gc.collect, Gc.mark_phase, hmark, Gc.sweep_phase]
